import Mathlib

/-!
Verification of the authenticated-session core of the bunq-go client
library (repository gwillem/bunq-go).

The Go source is shallowly embedded: pure helpers become Lean functions,
in-place mutation of the `Client` struct becomes explicit state passing
(functions return the updated `Client` even on error, mirroring Go methods
that mutate their receiver before returning an error), fallible code
returns `Except` or `Option`, and machine integers are modelled as `Nat`
or `Int` (none of the quantities involved can overflow 64 bits in the
scenarios the claims quantify over, except where noted).

External standard-library collaborators (crypto/rsa, crypto/sha256,
encoding/base64, encoding/pem, crypto/x509) are modelled bit-faithfully
from their documented behaviour: SHA-256 is implemented in full,
RSASSA-PKCS1-v1_5 is implemented over `Nat` with the exact EMSA encoding
(including the 19-byte SHA-256 DigestInfo and the modulus-size
check), and base64 follows Go's `StdEncoding`, which skips CR/LF and does
NOT reject non-zero trailing padding bits (Go documents that only
`Strict()` enables that check).
-/

namespace BunqGo

/-! ## Basic machinery: modular exponentiation and byte strings -/

/-- Square-and-multiply helper. The first `Nat` is the fuel: it strictly
decreases while the exponent halves, so any fuel at least the exponent is
enough. Kept structural in the fuel so the kernel can evaluate it. -/
def modPowAux (n : Nat) : Nat → Nat → Nat → Nat → Nat
  | 0, _, _, acc => acc
  | fuel + 1, b, e, acc =>
    if e = 0 then acc
    else modPowAux n fuel (b * b % n) (e / 2) (if e % 2 = 1 then acc * b % n else acc)

/-- Modular exponentiation, the model of Go's `(*big.Int).Exp`. -/
def modPow (b e n : Nat) : Nat :=
  modPowAux n e (b % n) e (1 % n)

/-- Big-endian minimal byte representation of a natural number, as
`(*big.Int).Bytes` produces it: no leading zero byte, and the empty list
for zero. Fuel-based so the kernel can evaluate it; fuel `v` suffices. -/
def minBytesAux : Nat → Nat → List Nat
  | 0, _ => []
  | fuel + 1, v => if v = 0 then [] else minBytesAux fuel (v / 256) ++ [v % 256]

/-- Minimal big-endian bytes of `v` (Go `(*big.Int).Bytes`). -/
def minBytes (v : Nat) : List Nat :=
  minBytesAux v v

/-- Big-endian interpretation of a byte string as a natural number
(Go `(*big.Int).SetBytes`, RFC 8017 OS2IP). -/
def os2ip (bs : List Nat) : Nat :=
  bs.foldl (fun acc b => acc * 256 + b) 0

/-- The integer `v` as exactly `k` big-endian bytes, zero-padded on the
left (RFC 8017 I2OSP, as Go's `(*big.Int).FillBytes` does). -/
def i2osp (v k : Nat) : List Nat :=
  let bs := minBytes v
  List.replicate (k - bs.length) 0 ++ bs

/-- Byte length of a natural number: Go's `(*rsa.PublicKey).Size()`,
which is `(BitLen+7)/8`; for positive numbers this is the length of the
minimal big-endian byte string. -/
def byteSizeOf (v : Nat) : Nat :=
  (minBytes v).length

/-- A byte string is valid when every entry is an octet. -/
def ValidBytes (bs : List Nat) : Prop :=
  ∀ b ∈ bs, b < 256

instance : DecidablePred ValidBytes := fun bs =>
  inferInstanceAs (Decidable (∀ b ∈ bs, b < 256))

/-! ## SHA-256 (model of Go's `crypto/sha256.Sum256`)

A full executable implementation over `Nat`, each word reduced mod 2^32. -/

/-- Reduce to a 32-bit word. -/
def w32 (x : Nat) : Nat := x % 4294967296

/-- Rotate a 32-bit word right by `r` bits. -/
def rotr32 (x r : Nat) : Nat :=
  w32 ((x >>> r) ||| (x <<< (32 - r)))

/-- SHA-256 small sigma 0. -/
def ssig0 (x : Nat) : Nat := (rotr32 x 7) ^^^ (rotr32 x 18) ^^^ (x >>> 3)

/-- SHA-256 small sigma 1. -/
def ssig1 (x : Nat) : Nat := (rotr32 x 17) ^^^ (rotr32 x 19) ^^^ (x >>> 10)

/-- SHA-256 big Sigma 0. -/
def bsig0 (x : Nat) : Nat := (rotr32 x 2) ^^^ (rotr32 x 13) ^^^ (rotr32 x 22)

/-- SHA-256 big Sigma 1. -/
def bsig1 (x : Nat) : Nat := (rotr32 x 6) ^^^ (rotr32 x 11) ^^^ (rotr32 x 25)

/-- SHA-256 choice function. -/
def shaCh (x y z : Nat) : Nat := (x &&& y) ^^^ ((x ^^^ 4294967295) &&& z)

/-- SHA-256 majority function. -/
def shaMaj (x y z : Nat) : Nat := (x &&& y) ^^^ (x &&& z) ^^^ (y &&& z)

/-- The 64 SHA-256 round constants. -/
def shaK : List Nat :=
  [1116352408, 1899447441, 3049323471, 3921009573, 961987163, 1508970993,
   2453635748, 2870763221, 3624381080, 310598401, 607225278, 1426881987,
   1925078388, 2162078206, 2614888103, 3248222580, 3835390401, 4022224774,
   264347078, 604807628, 770255983, 1249150122, 1555081692, 1996064986,
   2554220882, 2821834349, 2952996808, 3210313671, 3336571891, 3584528711,
   113926993, 338241895, 666307205, 773529912, 1294757372, 1396182291,
   1695183700, 1986661051, 2177026350, 2456956037, 2730485921, 2820302411,
   3259730800, 3345764771, 3516065817, 3600352804, 4094571909, 275423344,
   430227734, 506948616, 659060556, 883997877, 958139571, 1322822218,
   1537002063, 1747873779, 1955562222, 2024104815, 2227730452, 2361852424,
   2428436474, 2756734187, 3204031479, 3329325298]

/-- The SHA-256 initial hash value. -/
def shaH0 : List Nat :=
  [1779033703, 3144134277, 1013904242, 2773480762, 1359893119, 2600822924,
   528734635, 1541459225]

/-- SHA-256 padding: append 0x80, zeros up to 56 mod 64, then the bit
length as 8 big-endian bytes. -/
def shaPad (msg : List Nat) : List Nat :=
  msg ++ 128 :: List.replicate ((119 - msg.length % 64) % 64) 0
      ++ i2osp (8 * msg.length) 8

/-- Big-endian 4-byte groups to 32-bit words. -/
def bytesToWords : List Nat → List Nat
  | b0 :: b1 :: b2 :: b3 :: rest =>
    (((b0 * 256 + b1) * 256 + b2) * 256 + b3) :: bytesToWords rest
  | _ => []

/-- Message-schedule extension: the accumulator holds the words produced
so far in reverse order; each step prepends
`ssig1 w[i-2] + w[i-7] + ssig0 w[i-15] + w[i-16]`. -/
def schedAux : Nat → List Nat → List Nat
  | 0, rws => rws
  | k + 1, rws =>
    schedAux k
      (w32 (ssig1 (rws.getD 1 0) + rws.getD 6 0 + ssig0 (rws.getD 14 0)
            + rws.getD 15 0) :: rws)

/-- The 64-entry message schedule of a 16-word block. -/
def schedule (block : List Nat) : List Nat :=
  (schedAux 48 block.reverse).reverse

/-- One SHA-256 round, on the 8-word working state. -/
def shaRound (st : List Nat) (kw : Nat × Nat) : List Nat :=
  match st with
  | [a, b, c, d, e, f, g, h] =>
    let t1 := w32 (h + bsig1 e + shaCh e f g + kw.1 + kw.2)
    let t2 := w32 (bsig0 a + shaMaj a b c)
    [w32 (t1 + t2), a, b, c, w32 (d + t1), e, f, g]
  | other => other

/-- Compress one 16-word block into the running hash value. -/
def shaCompress (h : List Nat) (block : List Nat) : List Nat :=
  let st := (List.zip shaK (schedule block)).foldl shaRound h
  List.zipWith (fun x y => w32 (x + y)) h st

/-- Process the padded message, 16 words at a time.  Fuel-based (any fuel
at least the list length works). -/
def shaBlocksAux : Nat → List Nat → List Nat → List Nat
  | 0, h, _ => h
  | fuel + 1, h, ws =>
    if ws = [] then h
    else shaBlocksAux fuel (shaCompress h (ws.take 16)) (ws.drop 16)

/-- A 32-bit word as 4 big-endian bytes. -/
def wordBytes (w : Nat) : List Nat :=
  [w / 16777216 % 256, w / 65536 % 256, w / 256 % 256, w % 256]

/-- SHA-256 of a byte string, as 32 bytes (Go `sha256.Sum256`). -/
def sha256 (msg : List Nat) : List Nat :=
  let ws := bytesToWords (shaPad msg)
  let h := shaBlocksAux ws.length shaH0 ws
  wordBytes (h.getD 0 0) ++ wordBytes (h.getD 1 0) ++ wordBytes (h.getD 2 0)
    ++ wordBytes (h.getD 3 0) ++ wordBytes (h.getD 4 0)
    ++ wordBytes (h.getD 5 0) ++ wordBytes (h.getD 6 0)
    ++ wordBytes (h.getD 7 0)

/-! ## Base64 (model of Go's `encoding/base64` `StdEncoding`)

Go's standard (non-`Strict`) decoder skips carriage returns and newlines,
requires canonical `=` padding, and — as the package documents — does NOT
require the unused trailing bits of the final symbol to be zero. -/

/-- The standard base64 alphabet. -/
def b64Alphabet : List Char :=
  "ABCDEFGHIJKLMNOPQRSTUVWXYZabcdefghijklmnopqrstuvwxyz0123456789+/".toList

/-- The symbol for a 6-bit value. -/
def b64Chr (v : Nat) : Char := b64Alphabet.getD v 'A'

/-- Position of a character in a list, counting from `i`. -/
def b64IdxAux (c : Char) : List Char → Nat → Option Nat
  | [], _ => none
  | a :: as, i => if a = c then some i else b64IdxAux c as (i + 1)

/-- The 6-bit value of a symbol, `none` for characters outside the
alphabet (including `=`). -/
def b64Idx (c : Char) : Option Nat := b64IdxAux c b64Alphabet 0

/-- Base64-encode a byte string (Go `StdEncoding.EncodeToString`). -/
def encodeB64 : List Nat → List Char
  | [] => []
  | [a] => [b64Chr (a / 4), b64Chr (a % 4 * 16), '=', '=']
  | [a, b] => [b64Chr (a / 4), b64Chr (a % 4 * 16 + b / 16), b64Chr (b % 16 * 4), '=']
  | a :: b :: c :: rest =>
    b64Chr (a / 4) :: b64Chr (a % 4 * 16 + b / 16) :: b64Chr (b % 16 * 4 + c / 64)
      :: b64Chr (c % 64) :: encodeB64 rest

/-- Decode whitespace-free base64 text, one 4-symbol quantum at a time.
Padding may appear only in the final quantum; following Go's standard
(non-strict) decoder, the unused low bits of the last data symbol are
dropped without being checked. -/
def decB64Aux : List Char → Option (List Nat)
  | [] => some []
  | c1 :: c2 :: c3 :: c4 :: rest =>
    match b64Idx c1, b64Idx c2 with
    | some v1, some v2 =>
      if c3 = '=' then
        if c4 = '=' ∧ rest = [] then some [v1 * 4 + v2 / 16] else none
      else
        match b64Idx c3 with
        | some v3 =>
          if c4 = '=' then
            if rest = [] then some [v1 * 4 + v2 / 16, v2 % 16 * 16 + v3 / 4] else none
          else
            match b64Idx c4 with
            | some v4 =>
              match decB64Aux rest with
              | some bs =>
                some ((v1 * 4 + v2 / 16) :: (v2 % 16 * 16 + v3 / 4)
                      :: (v3 % 4 * 64 + v4) :: bs)
              | none => none
            | none => none
        | none => none
    | _, _ => none
  | _ => none

/-- Base64-decode (Go `StdEncoding.DecodeString`): CR and LF are skipped
anywhere, everything else is decoded in 4-symbol quanta. -/
def decodeB64 (cs : List Char) : Option (List Nat) :=
  decB64Aux (cs.filter (fun c => !(c == '\r') && !(c == '\n')))

/-! ## RSASSA-PKCS1-v1_5 (model of Go's `crypto/rsa` signing primitives)

`rsa.SignPKCS1v15` and `rsa.VerifyPKCS1v15` with `crypto.SHA256`, over
`Nat`.  The EMSA-PKCS1-v1_5 encoding is exact: `0x00 0x01 PS 0x00 ||
DigestInfo || hash` padded to the modulus byte size, with the signing
operation `m ^ d mod n` and the verification operation `s ^ e mod n`
(signature representatives outside `[0, n)` are rejected, per RFC 8017
and Go's `crypto/internal/bigmod`-based implementation). -/

/-- An RSA public key: modulus and public exponent. -/
structure RSAPublicKey where
  n : Nat
  e : Nat
deriving DecidableEq, Repr

/-- An RSA private key: modulus and private exponent (the CRT values Go
also carries are a pure optimization with the same result). -/
structure RSAPrivateKey where
  n : Nat
  d : Nat
deriving DecidableEq, Repr

/-- The fixed SHA-256 `DigestInfo` bytes Go prepends to the digest
(`hashPrefixes[crypto.SHA256]` in `crypto/rsa/pkcs1v15.go`). -/
def digestInfoSHA256 : List Nat :=
  [48, 49, 48, 13, 6, 9, 96, 134, 72, 1, 101, 3, 4, 2, 1, 5, 0, 4, 32]

/-- EMSA-PKCS1-v1_5 encoding of a SHA-256 digest for a `k`-byte modulus:
`tLen = 19 + 32 = 51`; fails when the digest is not 32 bytes or
`k < tLen + 11` (Go's `ErrMessageTooLong`). -/
def emsaPKCS1v15 (hashed : List Nat) (k : Nat) : Except String (List Nat) :=
  if hashed.length ≠ 32 then .error "crypto/rsa: input must be hashed message"
  else if k < 62 then .error "crypto/rsa: message too long"
  else .ok (0 :: 1 :: List.replicate (k - 54) 255 ++ 0 :: digestInfoSHA256 ++ hashed)

/-- The constant part of the EMSA encoding for a `k`-byte modulus:
everything before the digest. -/
def emPad (k : Nat) : List Nat :=
  0 :: 1 :: List.replicate (k - 54) 255 ++ 0 :: digestInfoSHA256

/-- Go `rsa.SignPKCS1v15(rand, priv, crypto.SHA256, hashed)`. -/
def rsaSignPKCS1v15 (priv : RSAPrivateKey) (hashed : List Nat) :
    Except String (List Nat) :=
  let k := byteSizeOf priv.n
  match emsaPKCS1v15 hashed k with
  | .error e => .error e
  | .ok em => .ok (i2osp (modPow (os2ip em) priv.d priv.n) k)

/-- Go `rsa.VerifyPKCS1v15(pub, crypto.SHA256, hashed, sig)`. -/
def rsaVerifyPKCS1v15 (pub : RSAPublicKey) (hashed sig : List Nat) :
    Except String Unit :=
  let k := byteSizeOf pub.n
  match emsaPKCS1v15 hashed k with
  | .error _ => .error "crypto/rsa: verification error"
  | .ok em =>
    if sig.length ≠ k then .error "crypto/rsa: verification error"
    else if pub.n ≤ os2ip sig then .error "crypto/rsa: verification error"
    else if i2osp (modPow (os2ip sig) pub.e pub.n) k = em then .ok ()
    else .error "crypto/rsa: verification error"

/-! ## The repository's signature codec (`security.go`) -/

/-- Source `signRequest`: SHA-256 the body, sign it PKCS1-v1_5, and
base64-encode the signature. -/
def signRequest (privateKey : RSAPrivateKey) (body : List Nat) :
    Except String String :=
  match rsaSignPKCS1v15 privateKey (sha256 body) with
  | .error e => .error ("signing request: " ++ e)
  | .ok sig => .ok (String.mk (encodeB64 sig))

/-- Source `verifyResponse`: base64-decode the signature, recompute the
digest and verify. -/
def verifyResponse (serverPubKey : RSAPublicKey) (body : List Nat)
    (signature : String) : Except String Unit :=
  match decodeB64 signature.toList with
  | none => .error "decoding signature"
  | some sig => rsaVerifyPKCS1v15 serverPubKey (sha256 body) sig

/-! ## DER and PEM (models of `crypto/x509` PKCS#1 marshalling and
`encoding/pem`)

`x509.MarshalPKCS1PublicKey` emits `SEQUENCE { INTEGER n, INTEGER e }` in
DER; `x509.ParsePKCS1PublicKey` parses it back (requiring definite
minimal lengths, minimally-encoded non-negative integers, an `E` that
fits a 64-bit int, and no trailing data).  `pem.EncodeToMemory` wraps the
base64 body at 64 characters per line between BEGIN/END boundary lines;
the decoder here handles exactly that canonical shape (Go's `pem.Decode`
scans more liberally, which no claim depends on). -/

/-- DER definite-length octets (short or minimal long form). -/
def derLen (l : Nat) : List Nat :=
  if l < 128 then [l]
  else (128 + (minBytes l).length) :: minBytes l

/-- Content octets of a DER INTEGER for a non-negative value: minimal
big-endian bytes, `0x00`-prefixed when the high bit would be set. -/
def derIntContent (v : Nat) : List Nat :=
  let bs := if v = 0 then [0] else minBytes v
  if 128 ≤ bs.headD 0 then 0 :: bs else bs

/-- A DER INTEGER (tag `0x02`). -/
def derInt (v : Nat) : List Nat :=
  2 :: derLen (derIntContent v).length ++ derIntContent v

/-- Go `x509.MarshalPKCS1PublicKey`: `SEQUENCE { INTEGER n, INTEGER e }`. -/
def marshalPKCS1PublicKey (pub : RSAPublicKey) : List Nat :=
  let content := derInt pub.n ++ derInt pub.e
  48 :: derLen content.length ++ content

/-- Parse DER length octets, returning the length and the rest; rejects
the indefinite form and non-minimal long forms, as DER (and Go's `asn1`)
requires. -/
def parseDERLen : List Nat → Option (Nat × List Nat)
  | [] => none
  | b :: r =>
    if b < 128 then some (b, r)
    else
      let m := b - 128
      if m = 0 then none
      else if r.length < m then none
      else
        let lb := r.take m
        if lb.headD 0 = 0 then none
        else
          let l := os2ip lb
          if m = 1 ∧ l < 128 then none else some (l, r.drop m)

/-- Parse a DER INTEGER into a non-negative value and the rest; rejects
empty content, negative values (high bit set) and non-minimal padding. -/
def parseDERInt : List Nat → Option (Nat × List Nat)
  | 2 :: r =>
    match parseDERLen r with
    | none => none
    | some (l, r1) =>
      if r1.length < l ∨ l = 0 then none
      else
        let content := r1.take l
        if 128 ≤ content.headD 0 then none
        else if 1 < l ∧ content.headD 0 = 0 ∧ content.tail.headD 0 < 128 then none
        else some (os2ip content, r1.drop l)
  | _ => none

/-- Go `x509.ParsePKCS1PublicKey`. The public exponent is decoded into a
Go `int`, so at most 8 content octets (values below `2^63`) are
accepted; zero components are rejected. -/
def parsePKCS1PublicKey (der : List Nat) : Except String RSAPublicKey :=
  match der with
  | 48 :: r =>
    match parseDERLen r with
    | none => .error "asn1: syntax error"
    | some (l, r1) =>
      if r1.length < l then .error "asn1: syntax error"
      else if r1.drop l ≠ [] then .error "x509: trailing data"
      else
        match parseDERInt (r1.take l) with
        | none => .error "asn1: syntax error"
        | some (n, r2) =>
          match parseDERInt r2 with
          | none => .error "asn1: syntax error"
          | some (e, r3) =>
            if r3 ≠ [] then .error "asn1: syntax error"
            else if 18446744073709551615 / 2 < e then .error "asn1: integer too large"
            else if n = 0 ∨ e = 0 then .error "x509: zero or negative value"
            else .ok ⟨n, e⟩
  | _ => .error "asn1: syntax error"

/-- The `AlgorithmIdentifier` for rsaEncryption with a NULL parameter, as
it appears inside a PKIX `SubjectPublicKeyInfo`. -/
def rsaEncryptionAlgID : List Nat :=
  [48, 13, 6, 9, 42, 134, 72, 134, 247, 13, 1, 1, 1, 5, 0]

/-- Go `x509.ParsePKIXPublicKey` followed by the `*rsa.PublicKey` type
assertion (the source's fallback branch): `SEQUENCE { AlgorithmIdentifier,
BIT STRING { PKCS#1 key } }`. -/
def parsePKIXRSAPublicKey (der : List Nat) : Except String RSAPublicKey :=
  match der with
  | 48 :: r =>
    match parseDERLen r with
    | none => .error "asn1: syntax error"
    | some (l, r1) =>
      if r1.length < l ∨ r1.drop l ≠ [] then .error "asn1: syntax error"
      else
        let content := r1.take l
        if content.take 15 ≠ rsaEncryptionAlgID then .error "not an RSA public key"
        else
          match content.drop 15 with
          | 3 :: r2 =>
            match parseDERLen r2 with
            | none => .error "asn1: syntax error"
            | some (l2, r3) =>
              if r3.length < l2 ∨ r3.drop l2 ≠ [] ∨ l2 = 0 then
                .error "asn1: syntax error"
              else
                match r3.take l2 with
                | 0 :: inner => parsePKCS1PublicKey inner
                | _ => .error "asn1: syntax error"
          | _ => .error "asn1: syntax error"
  | _ => .error "asn1: syntax error"

/-- The PEM boundary line opening an `RSA PUBLIC KEY` block. -/
def pemBeginRSA : List Char := "-----BEGIN RSA PUBLIC KEY-----".toList

/-- The PEM boundary line closing an `RSA PUBLIC KEY` block. -/
def pemEndRSA : List Char := "-----END RSA PUBLIC KEY-----".toList

/-- Split into chunks of 64 characters (fuel-based; fuel at least the
length works). -/
def chunksAux : Nat → List Char → List (List Char)
  | _, [] => []
  | 0, cs => [cs]
  | f + 1, cs => cs.take 64 :: chunksAux f (cs.drop 64)

/-- The 64-character lines `pem.EncodeToMemory` wraps a base64 body
into. -/
def chunks64 (cs : List Char) : List (List Char) :=
  chunksAux cs.length cs

/-- Join lines, terminating each with a newline. -/
def joinLines : List (List Char) → List Char
  | [] => []
  | l :: ls => l ++ '\n' :: joinLines ls

/-- Split text at newlines (the final entry is what follows the last
newline). -/
def splitLines (cs : List Char) : List (List Char) :=
  cs.foldr
    (fun c acc =>
      match acc with
      | [] => [[]]
      | line :: rest => if c = '\n' then [] :: line :: rest else (c :: line) :: rest)
    [[]]

/-- Go `pem.EncodeToMemory` for an `RSA PUBLIC KEY` block. -/
def pemEncodeRSA (der : List Nat) : List Char :=
  joinLines (pemBeginRSA :: (chunks64 (encodeB64 der) ++ [pemEndRSA]))

/-- Source `publicKeyToPEM`: PKCS#1-marshal the key and PEM-encode it. -/
def publicKeyToPEM (pub : RSAPublicKey) : String :=
  String.mk (pemEncodeRSA (marshalPKCS1PublicKey pub))

/-- Go `pem.Decode` on the canonical block shape produced by
`pem.EncodeToMemory`: boundary lines around a base64 body. -/
def pemDecode (cs : List Char) : Option (List Nat) :=
  match splitLines cs with
  | [] => none
  | hdr :: rest =>
    if hdr = pemBeginRSA then
      if (rest.dropWhile (fun l => l ≠ pemEndRSA)).head? = some pemEndRSA then
        decodeB64 (rest.takeWhile (fun l => l ≠ pemEndRSA)).flatten
      else none
    else none

/-- Source `parsePublicKeyPEM`: decode the PEM block, try PKCS#1 first,
then PKIX, and require an RSA key. -/
def parsePublicKeyPEM (pemStr : String) : Except String RSAPublicKey :=
  match pemDecode pemStr.toList with
  | none => .error "failed to decode PEM block"
  | some der =>
    match parsePKCS1PublicKey der with
    | .ok pub => .ok pub
    | .error _ =>
      match parsePKIXRSAPublicKey der with
      | .ok pub => .ok pub
      | .error e => .error ("parsing public key: " ++ e)

/-! ## JSON values

Response bodies reach the session code as raw bytes and are immediately
parsed by `encoding/json`; the claims concern the envelope structure, not
JSON lexing, so bodies are embedded as already-parsed JSON values.
Objects are association lists; Go's `map[string]json.RawMessage` has a
nondeterministic iteration order, modelled here as the list order, and
`encoding/json` keeps the last of duplicate keys, so object lookups take
the last matching entry. -/

inductive Json where
  | null : Json
  | bool (b : Bool) : Json
  | num (i : Int) : Json
  | str (s : String) : Json
  | arr (items : List Json) : Json
  | obj (fields : List (String × Json)) : Json
deriving Repr

/-- Last-occurrence field lookup (what `encoding/json` decodes a
duplicate-keyed object to). -/
def jGet (fields : List (String × Json)) (key : String) : Option Json :=
  (fields.reverse.find? (fun kv => kv.1 == key)).map (·.2)

/-! ## The client and the session state (`bunq.go`, `session.go`)

The `Client` struct, restricted to the session fields the claims are
about; the HTTP transport, config and the generated service container are
external to every claim. Go methods mutate the receiver in place and may
do so before returning an error, so each embedded method returns the
updated `Client` alongside its result. -/

structure Client where
  privateKey : Option RSAPrivateKey := none
  serverPublicKey : Option RSAPublicKey := none
  installationToken : String := ""
  sessionToken : String := ""
  sessionExpiry : Int := 0
  userID : Int := 0
  primaryMonetaryAccountID : Int := 0
deriving DecidableEq, Repr

/-- Go `json.Unmarshal` of a JSON value into `struct { Token string }`
with tag `token`: the value must be an object; an absent field keeps the
zero value; a present field must be a string. -/
def unmarshalTokenField (v : Json) : Except String String :=
  match v with
  | .obj fields =>
    match jGet fields "token" with
    | none => .ok ""
    | some (.str s) => .ok s
    | some _ => .error "json: cannot unmarshal value into field token of type string"
  | _ => .error "json: cannot unmarshal value into Go struct"

/-- Go `json.Unmarshal` into `struct { ID int; SessionTimeout int }` with
tags `id` and `session_timeout`. -/
def unmarshalUserFields (v : Json) : Except String (Int × Int) :=
  match v with
  | .obj fields =>
    match jGet fields "id", jGet fields "session_timeout" with
    | none, none => .ok (0, 0)
    | some (.num i), none => .ok (i, 0)
    | none, some (.num t) => .ok (0, t)
    | some (.num i), some (.num t) => .ok (i, t)
    | _, _ => .error "json: cannot unmarshal value into Go struct"
  | _ => .error "json: cannot unmarshal value into Go struct"

/-- Go `json.Unmarshal` into `struct { ID int; Status string }` with tags
`id` and `status` (used by `findPrimaryAccount`). -/
def unmarshalAccountFields (v : Json) : Except String (Int × String) :=
  match v with
  | .obj fields =>
    match jGet fields "id", jGet fields "status" with
    | none, none => .ok (0, "")
    | some (.num i), none => .ok (i, "")
    | none, some (.str s) => .ok (0, s)
    | some (.num i), some (.str s) => .ok (i, s)
    | _, _ => .error "json: cannot unmarshal value into Go struct"
  | _ => .error "json: cannot unmarshal value into Go struct"

/-- Go `json.Unmarshal` of the body into
`struct { Response []json.RawMessage }`: the body must be an object; an
absent `Response` field yields the empty list; a present one must be an
array. -/
def responseEnvelope (body : Json) : Except String (List Json) :=
  match body with
  | .obj fields =>
    match jGet fields "Response" with
    | none => .ok []
    | some (.arr items) => .ok items
    | some _ => .error "json: cannot unmarshal value into field Response"
  | _ => .error "json: cannot unmarshal value into Go struct"

/-! ### `parseSessionResponse` (`session.go` lines 152-207)

The Go method walks the `Response` items, assigning `c.sessionToken` and
`c.userID` in place as it finds them, and only afterwards validates the
result and computes the expiry; a parse error therefore returns with
whatever fields were already overwritten. The walk is `parseSessionItems`
(also returning the local `sessionTimeout` variable), the method proper
is `parseSessionResponse`. -/

/-- One step of the user-object scan inside the item loop: keys `Id` and
`Token` are skipped, any other decodable value with a positive `id`
overwrites `c.userID` and the running `sessionTimeout`. -/
def sessionUserScanStep (acc : Client × Int) (kv : String × Json) : Client × Int :=
  if kv.1 = "Id" ∨ kv.1 = "Token" then acc
  else
    match unmarshalUserFields kv.2 with
    | .error _ => acc
    | .ok (i, t) => if 0 < i then ({ acc.1 with userID := i }, t) else acc

/-- The `Token` handling of one item: a present `Token` key must decode
(its token overwrites `c.sessionToken`), a failure aborts the walk. -/
def sessionTokenStep (c : Client) (fields : List (String × Json)) :
    Client × Option String :=
  match jGet fields "Token" with
  | none => (c, none)
  | some tv =>
    match unmarshalTokenField tv with
    | .error _ => (c, some "parsing session token")
    | .ok s => ({ c with sessionToken := s }, none)

/-- The item walk of `parseSessionResponse`: items that are not objects
are skipped; a `Token` item must decode (its token overwrites
`c.sessionToken`); every other key except `Id` is tried as a user object,
and a decodable one with a positive `id` overwrites `c.userID` and the
running `sessionTimeout`. -/
def parseSessionItems (c : Client) (timeout : Int) :
    List Json → Client × Int × Option String
  | [] => (c, timeout, none)
  | item :: rest =>
    match item with
    | .obj fields =>
      match sessionTokenStep c fields with
      | (c1, some e) => (c1, timeout, some e)
      | (c1, none) =>
        let scan := fields.foldl sessionUserScanStep (c1, timeout)
        parseSessionItems scan.1 scan.2 rest
    | _ => parseSessionItems c timeout rest

/-- Whether a JSON item is an object carrying a `Token` key. -/
def itemHasTokenKey : Json → Bool
  | .obj fields => (jGet fields "Token").isSome
  | _ => false

/-- Source `parseSessionResponse`: envelope, item walk, validation,
timeout defaulting (1800 seconds when zero) and
`sessionExpiry = now + timeout` (times in seconds). -/
def parseSessionResponse (c : Client) (now : Int) (body : Json) :
    Client × Option String :=
  match responseEnvelope body with
  | .error _ => (c, some "parsing session response")
  | .ok items =>
    match parseSessionItems c 0 items with
    | (c1, _, some e) => (c1, some e)
    | (c1, timeout, none) =>
      if c1.sessionToken = "" then (c1, some "no session token in response")
      else if c1.userID = 0 then (c1, some "no user ID in response")
      else
        let timeout := if timeout = 0 then 1800 else timeout
        ({ c1 with sessionExpiry := now + timeout }, none)

/-- Source `doSessionServer`: POST `/session-server` (its outcome is the
`sessionResp` argument) and parse the response. -/
def doSessionServer (c : Client) (now : Int) (sessionResp : Except String Json) :
    Client × Option String :=
  match sessionResp with
  | .error e => (c, some e)
  | .ok body => parseSessionResponse c now body

/-- Source `ensureSessionActive`: under the write lock, refresh via
`doSessionServer` unless more than 30 seconds remain until expiry. -/
def ensureSessionActive (c : Client) (now : Int)
    (sessionResp : Except String Json) : Client × Option String :=
  if 30 < c.sessionExpiry - now then (c, none)
  else doSessionServer c now sessionResp

/-! ### Bootstrap (`NewClient` and its steps, `session.go` lines 15-120,
209-241)

Network outcomes are inputs: each step receives the `Except` result of
its `c.request` call (the response body as parsed JSON on HTTP success). -/

/-- Go `json.Unmarshal` into `struct { Token string }` with tag `token`
(installation token item). -/
def unmarshalInstToken (v : Json) : Except String String := unmarshalTokenField v

/-- Go `json.Unmarshal` into `struct { ServerPublicKey string }` with tag
`server_public_key`. -/
def unmarshalServerKeyField (v : Json) : Except String String :=
  match v with
  | .obj fields =>
    match jGet fields "server_public_key" with
    | none => .ok ""
    | some (.str s) => .ok s
    | some _ => .error "json: cannot unmarshal value into field server_public_key"
  | _ => .error "json: cannot unmarshal value into Go struct"

/-- The item walk of `doInstallation`: a `Token` item sets the
installation token, a `ServerPublicKey` item is PEM-parsed into the
server key; errors abort the walk with the partially updated client. -/
def installItems (c : Client) : List Json → Client × Option String
  | [] => (c, none)
  | item :: rest =>
    match item with
    | .obj fields =>
      let afterTok : Client × Option String :=
        match jGet fields "Token" with
        | none => (c, none)
        | some tv =>
          match unmarshalInstToken tv with
          | .error _ => (c, some "parsing token")
          | .ok s => ({ c with installationToken := s }, none)
      match afterTok with
      | (c1, some e) => (c1, some e)
      | (c1, none) =>
        match jGet fields "ServerPublicKey" with
        | none => installItems c1 rest
        | some kv =>
          match unmarshalServerKeyField kv with
          | .error _ => (c1, some "parsing server public key")
          | .ok pemStr =>
            match parsePublicKeyPEM pemStr with
            | .error _ => (c1, some "parsing server public key PEM")
            | .ok pub => installItems { c1 with serverPublicKey := some pub } rest
    | _ => installItems c rest

/-- Source `doInstallation`: POST `/installation` (outcome given), walk
the response items, then require both the installation token and the
server public key. -/
def doInstallation (c : Client) (instResp : Except String Json) :
    Client × Option String :=
  match instResp with
  | .error e => (c, some e)
  | .ok body =>
    match responseEnvelope body with
    | .error _ => (c, some "parsing installation response")
    | .ok items =>
      match installItems c items with
      | (c1, some e) => (c1, some e)
      | (c1, none) =>
        if c1.installationToken = "" then (c1, some "no installation token in response")
        else if c1.serverPublicKey = none then (c1, some "no server public key in response")
        else (c1, none)

/-- Source `doDeviceServer`: POST `/device-server`; the response body is
ignored, only the error matters. -/
def doDeviceServer (c : Client) (devResp : Except String Json) :
    Client × Option String :=
  match devResp with
  | .error e => (c, some e)
  | .ok _ => (c, none)

/-- The nested scan of `findPrimaryAccount`: the first value (any key) of
the first item that decodes with status `"ACTIVE"` and a positive `id`
becomes the primary account. -/
def accountScan : List Json → Option Int
  | [] => none
  | item :: rest =>
    match item with
    | .obj fields =>
      let hit := fields.findSome?
        (fun kv =>
          match unmarshalAccountFields kv.2 with
          | .error _ => none
          | .ok (i, status) => if status = "ACTIVE" ∧ 0 < i then some i else none)
      match hit with
      | some i => some i
      | none => accountScan rest
    | _ => accountScan rest

/-- Source `findPrimaryAccount`: GET the user's monetary accounts
(outcome given) and select the first `ACTIVE` account with a nonzero id. -/
def findPrimaryAccount (c : Client) (acctResp : Except String Json) :
    Client × Option String :=
  match acctResp with
  | .error e => (c, some e)
  | .ok body =>
    match responseEnvelope body with
    | .error _ => (c, some "parsing monetary accounts")
    | .ok items =>
      match accountScan items with
      | some i => ({ c with primaryMonetaryAccountID := i }, none)
      | none => (c, some "no active monetary account found")

/-- Source `NewClient`: generate keys (given), then installation →
device-server → session-server → primary account, aborting with no
client on the first failure. -/
def NewClient (privateKey : RSAPrivateKey)
    (instResp devResp sessResp acctResp : Except String Json) (now : Int) :
    Except String Client :=
  let c0 : Client := { privateKey := some privateKey }
  match doInstallation c0 instResp with
  | (_, some e) => .error ("installation: " ++ e)
  | (c1, none) =>
    match doDeviceServer c1 devResp with
    | (_, some e) => .error ("device-server: " ++ e)
    | (c2, none) =>
      match doSessionServer c2 now sessResp with
      | (_, some e) => .error ("session-server: " ++ e)
      | (c3, none) =>
        match findPrimaryAccount c3 acctResp with
        | (_, some e) => .error ("finding primary account: " ++ e)
        | (c4, none) => .ok c4

/-! ## Error classification (`errors.go`)

`newAPIError` maps an HTTP status and the error envelope to one of the
typed error structs; the wrapper types all carry the same `APIError`
value, so they are modelled as a kind tag. -/

inductive APIErrorKind where
  | badRequest
  | unauthorized
  | forbidden
  | notFound
  | methodNotAllowed
  | tooManyRequests
  | internalServer
  | generic
deriving DecidableEq, Repr

structure APIError where
  kind : APIErrorKind
  statusCode : Nat
  responseID : String
  messages : List String
deriving DecidableEq, Repr

/-- The description of one entry of the error envelope, as
`encoding/json` decodes it into `struct { ErrorDescription string }`
(tag `error_description`); `none` when the entry does not decode. -/
def errorEntryDescription (item : Json) : Option String :=
  match item with
  | .obj fields =>
    match jGet fields "error_description" with
    | none => some ""
    | some (.str s) => some s
    | some .null => some ""
    | some _ => none
  | .null => some ""
  | _ => none

/-- The message list `newAPIError` extracts: the envelope's
`error_description` strings when the body decodes to a non-empty `Error`
array, `["unknown error"]` otherwise. -/
def errorMessages (body : Option Json) : List String :=
  match body with
  | some (.obj fields) =>
    match jGet fields "Error" with
    | some (.arr items) =>
      if items.isEmpty then ["unknown error"]
      else
        match items.mapM errorEntryDescription with
        | some msgs => msgs
        | none => ["unknown error"]
    | _ => ["unknown error"]
  | _ => ["unknown error"]

/-- Source `newAPIError`: classify by status and attach the response id
and extracted messages. -/
def newAPIError (statusCode : Nat) (responseID : String) (body : Option Json) :
    APIError :=
  let kind : APIErrorKind :=
    if statusCode = 400 then .badRequest
    else if statusCode = 401 then .unauthorized
    else if statusCode = 403 then .forbidden
    else if statusCode = 404 then .notFound
    else if statusCode = 405 then .methodNotAllowed
    else if statusCode = 429 then .tooManyRequests
    else if statusCode = 500 then .internalServer
    else .generic
  { kind := kind, statusCode := statusCode, responseID := responseID,
    messages := errorMessages body }

/-! ## The request executor (`client.go` `request`, lines 57-148)

An HTTP response carries its status, headers, raw body octets, and the
body as parsed JSON (`none` when the body is not valid JSON); the
transcript argument lists the responses the transport would return to
successive sends. The executor returns the (possibly refreshed) client,
the call's outcome, and how many HTTP calls it made. -/

structure HttpResp where
  status : Nat
  headers : List (String × String)
  bodyJson : Option Json
  bodyBytes : List Nat

/-- Go `http.Header.Get`: the first value for the key, or the empty
string. -/
def getHeader (headers : List (String × String)) (key : String) : String :=
  ((headers.find? (fun kv => kv.1 == key)).map (·.2)).getD ""

inductive ReqError where
  | refresh (msg : String)
  | signFail (msg : String)
  | transport (msg : String)
  | api (e : APIError)
  | verifyFail (msg : String)
deriving DecidableEq, Repr

/-- The header-construction section of `request` (lines 99-119): the
fixed headers, a fresh request id, the authentication header only when
the token is non-empty, and a body signature only when both a private
key and a non-empty token are present. -/
def buildHeaders (reqID token : String) (privateKey : Option RSAPrivateKey)
    (bodyBytes : List Nat) : Except String (List (String × String)) :=
  let base := [("Content-Type", "application/json"),
               ("User-Agent", "bunq-go/1.0.0"),
               ("X-Bunq-Client-Request-Id", reqID),
               ("X-Bunq-Geolocation", "0 0 0 0 NL"),
               ("X-Bunq-Language", "en_US"),
               ("X-Bunq-Region", "nl_NL"),
               ("Cache-Control", "no-cache")]
  let withAuth :=
    if token ≠ "" then base ++ [("X-Bunq-Client-Authentication", token)] else base
  match privateKey with
  | some key =>
    if token ≠ "" then
      match signRequest key bodyBytes with
      | .error e => .error e
      | .ok sig => .ok (withAuth ++ [("X-Bunq-Client-Signature", sig)])
    else .ok withAuth
  | none => .ok withAuth

/-- Source `request`: ensure the session (when session-scoped), snapshot
the token, build headers, send, and on a non-200 status classify the
response with `newAPIError` — the code sends exactly once and never
retries. On 200 the server signature is verified when a server key and a
signature header are present. -/
def requestExec (c : Client) (useSessionToken : Bool) (now : Int)
    (sessionResp : Except String Json) (reqID : String) (bodyBytes : List Nat)
    (responses : List HttpResp) : Client × Except ReqError (List Nat) × Nat :=
  let ensured : Client × Option String :=
    if useSessionToken then ensureSessionActive c now sessionResp else (c, none)
  match ensured with
  | (c1, some e) => (c1, .error (.refresh e), 0)
  | (c1, none) =>
    let token := if useSessionToken then c1.sessionToken else c1.installationToken
    match buildHeaders reqID token c1.privateKey bodyBytes with
    | .error e => (c1, .error (.signFail e), 0)
    | .ok _ =>
      match responses with
      | [] => (c1, .error (.transport "executing request"), 0)
      | resp :: _ =>
        if resp.status ≠ 200 then
          (c1, .error (.api (newAPIError resp.status
              (getHeader resp.headers "X-Bunq-Client-Response-Id")
              resp.bodyJson)), 1)
        else
          match c1.serverPublicKey with
          | some pk =>
            let serverSig := getHeader resp.headers "X-Bunq-Server-Signature"
            if serverSig ≠ "" then
              match verifyResponse pk resp.bodyBytes serverSig with
              | .error e =>
                (c1, .error (.verifyFail ("server signature verification failed: " ++ e)), 1)
              | .ok _ => (c1, .ok resp.bodyBytes, 1)
            else (c1, .ok resp.bodyBytes, 1)
          | none => (c1, .ok resp.bodyBytes, 1)

/-! ## Pagination (`bunq.go` lines 58-166)

`Pagination` carries the cursor URLs the API returns; `listIter` is the
lazy iterator.  The iterator is run against a script: entry `i` is the
outcome (HTTP + unmarshal) of the `i`-th page request, and the run
records every issued request's query parameters, the yielded items, and
the yielded error if any.  The consumer is modelled as consuming
everything (early termination by the consumer is a cancellation feature
none of the claims quantify over). -/

structure Pagination where
  olderURL : String := ""
  newerURL : String := ""
  futureURL : String := ""
deriving DecidableEq, Repr

structure ListOptions where
  Count : Int := 0
  OlderID : Int := 0
  NewerID : Int := 0
deriving DecidableEq, Repr

/-- Go `fmt.Sprintf("%d", i)` (source `intToStr`). -/
def intToStr (i : Int) : String := toString i

/-- Source `(*ListOptions).toParams`: `nil` gives no parameters, and each
positive field contributes one. -/
def toParams (o : Option ListOptions) : List (String × String) :=
  match o with
  | none => []
  | some opts =>
    (if 0 < opts.Count then [("count", intToStr opts.Count)] else [])
      ++ (if 0 < opts.OlderID then [("older_id", intToStr opts.OlderID)] else [])
      ++ (if 0 < opts.NewerID then [("newer_id", intToStr opts.NewerID)] else [])

/-- Digit-string value, `none` on a non-digit. -/
def digitsAux (acc : Nat) : List Char → Option Nat
  | [] => some acc
  | c :: rest =>
    if c.isDigit then digitsAux (acc * 10 + (c.toNat - 48)) rest else none

/-- Go `strconv.Atoi`: optional sign, then at least one digit. -/
def atoiQ (s : String) : Option Int :=
  match s.toList with
  | [] => none
  | '+' :: ds => if ds = [] then none else (digitsAux 0 ds).map Int.ofNat
  | '-' :: ds => if ds = [] then none else (digitsAux 0 ds).map (fun v => -(v : Int))
  | ds => (digitsAux 0 ds).map Int.ofNat

/-- Split a character list at every occurrence of `sep`. -/
def splitOnChar (sep : Char) (cs : List Char) : List (List Char) :=
  cs.foldr
    (fun c acc =>
      match acc with
      | [] => [[]]
      | part :: rest => if c = sep then [] :: part :: rest else (c :: part) :: rest)
    [[]]

/-- Everything after the first `?`, the URL's raw query (Go `url.Parse`;
percent-decoding is not modelled, cursor URLs carry plain digits). -/
def charsAfterQM : List Char → List Char
  | [] => []
  | '?' :: rest => rest
  | _ :: rest => charsAfterQM rest

/-- Go `url.Values.Get`: the first value of the parameter (splitting
each `&`-separated pair at its first `=`), or empty. -/
def queryGet (query : List Char) (param : List Char) : List Char :=
  ((splitOnChar '&' query).findSome?
    (fun pair =>
      if pair.takeWhile (fun c => c ≠ '=') = param then
        some ((pair.dropWhile (fun c => c ≠ '=')).drop 1)
      else none)).getD []

/-- Source `parseIDFromURL`: extract the query parameter and require a
positive integer. -/
def parseIDFromURL (rawURL param : String) : Option Int :=
  if rawURL = "" then none
  else
    let s := queryGet (charsAfterQM rawURL.toList) param.toList
    if s = [] then none
    else
      match atoiQ (String.mk s) with
      | none => none
      | some id => if id ≤ 0 then none else some id

/-- Source `(*Pagination).olderID` (with Go's nil-receiver check). -/
def olderIDof (p : Option Pagination) : Option Int :=
  match p with
  | none => none
  | some pg => parseIDFromURL pg.olderURL "older_id"

/-- Source `ListResponse`: a page of items plus pagination metadata. -/
structure ListResponse (α : Type) where
  Items : List α
  Pagination : Option Pagination := none

/-- Source `defaultListCount`: the bunq API maximum of 200 items per
page. -/
def defaultListCount : Int := 200

/-- The loop body of `listIter`: issue the request with `params` (script
head is its outcome), stop on a get/unmarshal error (yielding it), stop
on an empty page, yield the items, extract the older cursor, and stop
when it is absent or equal to the cursor just used; otherwise continue
with the extracted cursor. Returns (issued requests, yielded items,
yielded error). -/
def listAux {α : Type} (count : Int) (prevOlder : Int)
    (params : List (String × String)) :
    List (Except String (ListResponse α)) →
      List (List (String × String)) × List α × Option String
  | [] => ([params], [], some "executing request")
  | r :: rest =>
    match r with
    | .error e => ([params], [], some e)
    | .ok resp =>
      if resp.Items.isEmpty then ([params], [], none)
      else
        match olderIDof resp.Pagination with
        | none => ([params], resp.Items, none)
        | some oid =>
          if oid = prevOlder then ([params], resp.Items, none)
          else
            let next := listAux count oid
              (toParams (some { OlderID := oid, Count := count })) rest
            (params :: next.1, resp.Items ++ next.2.1, next.2.2)

/-- Source `listIter` (`bunq.go` lines 123-166): default the page size
to `defaultListCount` when the caller specifies none, then loop. -/
def listIter {α : Type} (opts : Option ListOptions)
    (script : List (Except String (ListResponse α))) :
    List (List (String × String)) × List α × Option String :=
  let count : Int :=
    match opts with
    | some o => if 0 < o.Count then o.Count else defaultListCount
    | none => defaultListCount
  let o1 := opts.getD {}
  let o2 := if o1.Count = 0 then { o1 with Count := count } else o1
  listAux count 0 (toParams (some o2)) script

/-! ## Concrete RSA key material for witnesses and counterexamples

A valid RSA key pair whose primes admit kernel-checkable Lucas
certificates: `certP = 3·2^18 + 1` and `certQ = 3·2^534 + 1` are Proth
primes (so `p - 1` has only the prime factors 2 and 3), the modulus is
70 bytes (enough for the 62-byte EMSA-PKCS1-v1_5 minimum), and
`certE * certD ≡ 1` modulo both `certP - 1` and `certQ - 1`. -/

def certP : Nat := 786433

def certQ : Nat := 3 * 2 ^ 534 + 1

def certN : Nat := certP * certQ

def certE : Nat := 5

def certD : Nat := 67483706918147945742158077615289727883045456774528749496511333589177563710072318054785610291558362857248813659502813426848123990832414495335127727712977457827021

def certPriv : RSAPrivateKey := ⟨certN, certD⟩

def certPub : RSAPublicKey := ⟨certN, certE⟩

/-- The base64 signature `signRequest certPriv []` produces. -/
def certSigStr : String :=
  "CAH5evoVURU+FQBw0wjlbxmPRw7F9bOopcjij/9hZ7aUMT/4DYFNftePffixso0akDXGTtUuPdAiSJBKcB3TKU259oBsig=="

/-- The same signature with one trailing padding bit of the final data
symbol flipped: it decodes to the same bytes under Go's non-strict
base64. -/
def certSigTampered : String :=
  "CAH5evoVURU+FQBw0wjlbxmPRw7F9bOopcjij/9hZ7aUMT/4DYFNftePffixso0akDXGTtUuPdAiSJBKcB3TKU259oBsih=="

/-! ## Concrete inputs used by witnesses and counterexamples -/

/-- A 429 response with a rate-limit error envelope and a `Retry-After`
hint, as in the repository's own retry tests. -/
def resp429 : HttpResp :=
  { status := 429,
    headers := [("Retry-After", "0"), ("X-Bunq-Client-Response-Id", "resp-429")],
    bodyJson := some (.obj [("Error",
      .arr [.obj [("error_description", .str "Too many requests")]])]),
    bodyBytes := [] }

/-- A plain 200 response. -/
def resp200 : HttpResp :=
  { status := 200, headers := [], bodyJson := none, bodyBytes := [] }

/-- A client holding a previously established session that is about to
expire. -/
def staleClient : Client :=
  { installationToken := "inst", sessionToken := "OLD", sessionExpiry := 10,
    userID := 7 }

/-- A session-server response whose first item carries a fresh token and
whose second `Token` item is malformed (a number instead of an object),
so parsing mutates the token and then fails. -/
def corruptingRefreshBody : Json :=
  .obj [("Response", .arr
    [.obj [("Token", .obj [("token", .str "NEW")])],
     .obj [("Token", .num 5)]])]

/-- A well-formed session-server response: a token and a user with a
600-second session timeout. -/
def sessionOKBody : Json :=
  .obj [("Response", .arr
    [.obj [("Token", .obj [("token", .str "sesstok")])],
     .obj [("UserPerson", .obj [("id", .num 7), ("session_timeout", .num 600)])]])]

/-- A well-formed installation response: a token and the server's public
key PEM. -/
def installOKBody : Json :=
  .obj [("Response", .arr
    [.obj [("Token", .obj [("token", .str "insttok")])],
     .obj [("ServerPublicKey",
       .obj [("server_public_key", .str (publicKeyToPEM certPub))])]])]

/-- A monetary-account listing with one ACTIVE account. -/
def accountsOKBody : Json :=
  .obj [("Response", .arr
    [.obj [("MonetaryAccountBank",
      .obj [("id", .num 9), ("status", .str "ACTIVE")])]])]

/-- A session-server response carrying a negative session timeout. -/
def negTimeoutBody : Json :=
  .obj [("Response", .arr
    [.obj [("Token", .obj [("token", .str "T")])],
     .obj [("UserPerson", .obj [("id", .num 1), ("session_timeout", .num (-100))])]])]

/-- A page with no items whose pagination metadata still carries a fresh
older cursor. -/
def emptyPageWithCursor : ListResponse Nat :=
  { Items := [],
    Pagination := some { olderURL := "https://example.org/v1/payment?older_id=5&count=200" } }

/-- A nonempty page with an older cursor. -/
def pageOne : ListResponse Nat :=
  { Items := [11, 12],
    Pagination := some { olderURL := "https://example.org/v1/payment?older_id=5&count=200" } }

/-- A final page with no pagination metadata. -/
def pageTwo : ListResponse Nat := { Items := [9], Pagination := none }

/-! ## Lemmas: modular exponentiation -/

theorem modPowAux_eq (n : Nat) (hn : 0 < n) :
    ∀ fuel e b acc, e ≤ fuel → b < n → acc < n →
      modPowAux n fuel b e acc = acc * b ^ e % n := by
  intro fuel
  induction fuel with
  | zero =>
    intro e b acc he _ hacc
    interval_cases e
    simp [modPowAux, Nat.mod_eq_of_lt hacc]
  | succ fuel ih =>
    intro e b acc he hb hacc
    by_cases he0 : e = 0
    · subst he0
      simp [modPowAux, Nat.mod_eq_of_lt hacc]
    · rw [modPowAux, if_neg he0]
      have hdiv : e / 2 ≤ fuel := by
        have : e / 2 < e := Nat.div_lt_self (Nat.pos_of_ne_zero he0) one_lt_two
        omega
      have hbb : b * b % n < n := Nat.mod_lt _ hn
      have hacc' : (if e % 2 = 1 then acc * b % n else acc) < n := by
        by_cases h : e % 2 = 1 <;> simp [h, Nat.mod_lt _ hn, hacc]
      rw [ih (e / 2) (b * b % n) _ hdiv hbb hacc']
      have h1 : Nat.ModEq n ((b * b % n) ^ (e / 2)) ((b * b) ^ (e / 2)) :=
        (Nat.mod_modEq _ n).pow _
      by_cases hpar : e % 2 = 1
      · rw [if_pos hpar]
        have key : Nat.ModEq n (acc * b % n * (b * b % n) ^ (e / 2)) (acc * b ^ e) := by
          calc acc * b % n * (b * b % n) ^ (e / 2)
              ≡ acc * b * (b * b) ^ (e / 2) [MOD n] := (Nat.mod_modEq _ n).mul h1
            _ = acc * b ^ e := by
                have hsplit : e = 2 * (e / 2) + 1 := by omega
                rw [← pow_two, ← pow_mul]
                conv_rhs => rw [hsplit]
                rw [pow_succ]
                ring
        exact key
      · rw [if_neg hpar]
        have key : Nat.ModEq n (acc * (b * b % n) ^ (e / 2)) (acc * b ^ e) := by
          calc acc * (b * b % n) ^ (e / 2)
              ≡ acc * (b * b) ^ (e / 2) [MOD n] := Nat.ModEq.mul_left acc h1
            _ = acc * b ^ e := by
                have hsplit : e = 2 * (e / 2) := by omega
                rw [← pow_two, ← pow_mul]
                conv_rhs => rw [hsplit]
        exact key

/-- The model of `big.Int.Exp` computes modular exponentiation. -/
theorem modPow_eq (b e n : Nat) (hn : 0 < n) : modPow b e n = b ^ e % n := by
  rw [modPow, modPowAux_eq n hn e e (b % n) (1 % n) le_rfl (Nat.mod_lt _ hn)
    (Nat.mod_lt _ hn)]
  have key : Nat.ModEq n (1 % n * (b % n) ^ e) (1 * b ^ e) :=
    (Nat.mod_modEq 1 n).mul ((Nat.mod_modEq b n).pow e)
  calc 1 % n * (b % n) ^ e % n = 1 * b ^ e % n := key
    _ = b ^ e % n := by rw [one_mul]

/-! ## Lemmas: byte strings -/

theorem os2ip_acc (t : List Nat) :
    ∀ acc, t.foldl (fun a b => a * 256 + b) acc = acc * 256 ^ t.length + os2ip t := by
  induction t with
  | nil => intro acc; simp [os2ip]
  | cons b t ih =>
    intro acc
    have hcons : os2ip (b :: t) = b * 256 ^ t.length + os2ip t := by
      show (b :: t).foldl (fun a c => a * 256 + c) 0 = _
      rw [List.foldl_cons, ih (0 * 256 + b)]
      ring_nf
    rw [List.foldl_cons, ih (acc * 256 + b), hcons]
    simp [List.length_cons, pow_succ]
    ring

theorem os2ip_cons (b : Nat) (t : List Nat) :
    os2ip (b :: t) = b * 256 ^ t.length + os2ip t := by
  show (b :: t).foldl (fun a c => a * 256 + c) 0 = _
  rw [List.foldl_cons, os2ip_acc]
  ring_nf

theorem os2ip_append (xs ys : List Nat) :
    os2ip (xs ++ ys) = os2ip xs * 256 ^ ys.length + os2ip ys := by
  show (xs ++ ys).foldl (fun a c => a * 256 + c) 0 = _
  rw [List.foldl_append, os2ip_acc]
  rfl

theorem os2ip_lt (bs : List Nat) (h : ValidBytes bs) :
    os2ip bs < 256 ^ bs.length := by
  induction bs with
  | nil => simp [os2ip]
  | cons b t ih =>
    have hb : b < 256 := h b (List.mem_cons_self b t)
    have ht : os2ip t < 256 ^ t.length := ih (fun x hx => h x (List.mem_cons_of_mem _ hx))
    rw [os2ip_cons, List.length_cons, pow_succ]
    calc b * 256 ^ t.length + os2ip t < b * 256 ^ t.length + 256 ^ t.length := by omega
      _ = (b + 1) * 256 ^ t.length := by ring
      _ ≤ 256 * 256 ^ t.length := Nat.mul_le_mul_right _ (by omega)
      _ = 256 ^ t.length * 256 := by ring

theorem os2ip_inj (xs : List Nat) :
    ∀ ys, ValidBytes xs → ValidBytes ys → xs.length = ys.length →
      os2ip xs = os2ip ys → xs = ys := by
  induction xs with
  | nil =>
    intro ys _ _ hlen _
    exact (List.eq_nil_of_length_eq_zero hlen.symm).symm
  | cons b t ih =>
    intro ys hx hy hlen heq
    match ys with
    | [] => simp at hlen
    | c :: u =>
      have hlen' : t.length = u.length := by simpa using hlen
      rw [os2ip_cons, os2ip_cons, hlen'] at heq
      have hrt : os2ip t < 256 ^ u.length := by
        rw [← hlen']
        exact os2ip_lt t (fun x hx2 => hx x (List.mem_cons_of_mem _ hx2))
      have hru : os2ip u < 256 ^ u.length :=
        os2ip_lt u (fun x hx2 => hy x (List.mem_cons_of_mem _ hx2))
      have hb : b = c := by
        by_contra hne
        rcases Nat.lt_or_ge b c with hlt | hge
        · have h1 : (b + 1) * 256 ^ u.length ≤ c * 256 ^ u.length :=
            Nat.mul_le_mul_right _ (by omega)
          nlinarith [hrt, hru, heq]
        · have hgt : c < b := by omega
          have h1 : (c + 1) * 256 ^ u.length ≤ b * 256 ^ u.length :=
            Nat.mul_le_mul_right _ (by omega)
          nlinarith [hrt, hru, heq]
      subst hb
      have ht : os2ip t = os2ip u := Nat.add_left_cancel heq
      rw [ih u (fun x hx2 => hx x (List.mem_cons_of_mem _ hx2))
        (fun x hx2 => hy x (List.mem_cons_of_mem _ hx2)) hlen' ht]

theorem minBytesAux_valid : ∀ fuel v, ValidBytes (minBytesAux fuel v) := by
  intro fuel
  induction fuel with
  | zero => intro v; simp [minBytesAux, ValidBytes]
  | succ fuel ih =>
    intro v
    by_cases h : v = 0
    · simp [minBytesAux, h, ValidBytes]
    · rw [minBytesAux, if_neg h]
      intro b hb
      rcases List.mem_append.mp hb with h1 | h1
      · exact ih _ b h1
      · simp at h1
        omega

theorem minBytesAux_os2ip : ∀ fuel v, v ≤ fuel → os2ip (minBytesAux fuel v) = v := by
  intro fuel
  induction fuel with
  | zero =>
    intro v hv
    interval_cases v
    simp [minBytesAux, os2ip]
  | succ fuel ih =>
    intro v hv
    by_cases h : v = 0
    · simp [minBytesAux, h, os2ip]
    · rw [minBytesAux, if_neg h, os2ip_append, ih (v / 256) (by
        have : v / 256 < v := Nat.div_lt_self (Nat.pos_of_ne_zero h) (by omega)
        omega)]
      show v / 256 * 256 ^ (1 : Nat) + os2ip [v % 256] = v
      have : os2ip [v % 256] = v % 256 := by simp [os2ip]
      rw [this, pow_one]
      omega

theorem minBytesAux_lt :
    ∀ fuel v, v ≤ fuel → v < 256 ^ (minBytesAux fuel v).length := by
  intro fuel
  induction fuel with
  | zero =>
    intro v hv
    interval_cases v
    simp [minBytesAux]
  | succ fuel ih =>
    intro v hv
    by_cases h : v = 0
    · simp [minBytesAux, h]
    · rw [minBytesAux, if_neg h]
      have hrec : v / 256 < 256 ^ (minBytesAux fuel (v / 256)).length :=
        ih (v / 256) (by
          have : v / 256 < v := Nat.div_lt_self (Nat.pos_of_ne_zero h) (by omega)
          omega)
      rw [List.length_append, List.length_singleton, pow_succ]
      have : v = 256 * (v / 256) + v % 256 := (Nat.div_add_mod v 256).symm
      have hm : v % 256 < 256 := Nat.mod_lt _ (by omega)
      calc v = 256 * (v / 256) + v % 256 := this
        _ < 256 * (v / 256) + 256 := by omega
        _ = 256 * (v / 256 + 1) := by ring
        _ ≤ 256 * 256 ^ (minBytesAux fuel (v / 256)).length :=
            Nat.mul_le_mul_left _ (by omega)
        _ = 256 ^ (minBytesAux fuel (v / 256)).length * 256 := by ring

theorem minBytesAux_zero (fuel : Nat) : minBytesAux fuel 0 = [] := by
  cases fuel <;> simp [minBytesAux]

theorem minBytesAux_headD :
    ∀ fuel v, v ≤ fuel → v ≠ 0 →
      (minBytesAux fuel v).headD 0 ≠ 0 ∧ minBytesAux fuel v ≠ [] := by
  intro fuel
  induction fuel with
  | zero => intro v hv h0; omega
  | succ fuel ih =>
    intro v hv h0
    rw [minBytesAux, if_neg h0]
    by_cases hsmall : v / 256 = 0
    · rw [hsmall, minBytesAux_zero]
      simp
      omega
    · have hfuel : v / 256 ≤ fuel := by
        have : v / 256 < v := Nat.div_lt_self (Nat.pos_of_ne_zero h0) (by omega)
        omega
      obtain ⟨hhead, hne⟩ := ih (v / 256) hfuel hsmall
      match hmb : minBytesAux fuel (v / 256) with
      | [] => exact absurd hmb hne
      | x :: xs =>
        rw [hmb] at hhead
        simp at hhead ⊢
        exact hhead

theorem minBytesAux_le :
    ∀ fuel v, v ≤ fuel → v ≠ 0 →
      256 ^ ((minBytesAux fuel v).length - 1) ≤ v := by
  intro fuel
  induction fuel with
  | zero =>
    intro v hv h0
    omega
  | succ fuel ih =>
    intro v hv h0
    rw [minBytesAux, if_neg h0]
    by_cases hsmall : v / 256 = 0
    · rw [hsmall, minBytesAux_zero]
      simp
      omega
    · have hfuel : v / 256 ≤ fuel := by
        have : v / 256 < v := Nat.div_lt_self (Nat.pos_of_ne_zero h0) (by omega)
        omega
      have hrec := ih (v / 256) hfuel hsmall
      have hne : minBytesAux fuel (v / 256) ≠ [] :=
        (minBytesAux_headD fuel (v / 256) hfuel hsmall).2
      have hlen : 1 ≤ (minBytesAux fuel (v / 256)).length :=
        Nat.one_le_iff_ne_zero.mpr (by
          intro hz
          exact hne (List.eq_nil_of_length_eq_zero hz))
      rw [List.length_append, List.length_singleton]
      have : (minBytesAux fuel (v / 256)).length + 1 - 1
          = ((minBytesAux fuel (v / 256)).length - 1) + 1 := by omega
      rw [this, pow_succ]
      calc 256 ^ ((minBytesAux fuel (v / 256)).length - 1) * 256
          ≤ v / 256 * 256 := Nat.mul_le_mul_right _ hrec
        _ ≤ v := Nat.div_mul_le_self v 256

theorem minBytes_os2ip (v : Nat) : os2ip (minBytes v) = v :=
  minBytesAux_os2ip v v le_rfl

theorem minBytes_valid (v : Nat) : ValidBytes (minBytes v) :=
  minBytesAux_valid v v

theorem byteSizeOf_lt (v : Nat) : v < 256 ^ byteSizeOf v :=
  minBytesAux_lt v v le_rfl

theorem byteSizeOf_le (v : Nat) (h : v ≠ 0) : 256 ^ (byteSizeOf v - 1) ≤ v :=
  minBytesAux_le v v le_rfl h

theorem os2ip_replicate_zero (m : Nat) : os2ip (List.replicate m 0) = 0 := by
  induction m with
  | zero => simp [os2ip]
  | succ m ih =>
    rw [List.replicate_succ, os2ip_cons, ih]
    simp

theorem os2ip_i2osp (v k : Nat) : os2ip (i2osp v k) = v := by
  rw [i2osp, os2ip_append, os2ip_replicate_zero, minBytes_os2ip]
  simp

theorem i2osp_valid (v k : Nat) : ValidBytes (i2osp v k) := by
  intro b hb
  rcases List.mem_append.mp hb with h | h
  · have := List.eq_of_mem_replicate h
    omega
  · exact minBytes_valid v b h

theorem minBytes_length_le (v k : Nat) (h : v < 256 ^ k) :
    (minBytes v).length ≤ k := by
  by_cases h0 : v = 0
  · subst h0
    simp [minBytes, minBytesAux]
  · have hle := byteSizeOf_le v h0
    by_contra hgt
    push_neg at hgt
    have : 256 ^ k ≤ 256 ^ (byteSizeOf v - 1) := by
      apply Nat.pow_le_pow_right (by omega)
      have : k < (minBytes v).length := hgt
      show k ≤ byteSizeOf v - 1
      have : k ≤ byteSizeOf v - 1 := by
        unfold byteSizeOf
        omega
      exact this
    omega

theorem i2osp_length (v k : Nat) (h : v < 256 ^ k) : (i2osp v k).length = k := by
  have hle := minBytes_length_le v k h
  rw [i2osp, List.length_append, List.length_replicate]
  omega

theorem i2osp_os2ip (bs : List Nat) (k : Nat) (h : ValidBytes bs)
    (hl : bs.length = k) : i2osp (os2ip bs) k = bs := by
  have hlt : os2ip bs < 256 ^ k := by
    rw [← hl]
    exact os2ip_lt bs h
  exact os2ip_inj (i2osp (os2ip bs) k) bs (i2osp_valid _ _) h
    (by rw [i2osp_length _ _ hlt, hl]) (by rw [os2ip_i2osp])

/-! ## Lemmas: RSA inversion (Fermat + CRT) -/

theorem pow_inverts_mod_prime (p e d m : Nat) (hp : p.Prime) (hed : 1 ≤ e * d)
    (h : e * d ≡ 1 [MOD p - 1]) : m ^ (e * d) ≡ m [MOD p] := by
  haveI : Fact p.Prime := ⟨hp⟩
  suffices h2 : ((m ^ (e * d) : Nat) : ZMod p) = ((m : Nat) : ZMod p) by
    exact (ZMod.natCast_eq_natCast_iff _ _ _).mp h2
  rw [Nat.cast_pow]
  by_cases hm : (m : ZMod p) = 0
  · rw [hm, zero_pow (by omega : e * d ≠ 0)]
  · obtain ⟨c, hc⟩ : ∃ c, e * d = 1 + (p - 1) * c := by
      obtain ⟨c, hc⟩ := (Nat.modEq_iff_dvd' hed).mp h.symm
      exact ⟨c, by omega⟩
    rw [hc]
    calc (m : ZMod p) ^ (1 + (p - 1) * c)
        = (m : ZMod p) ^ 1 * ((m : ZMod p) ^ (p - 1)) ^ c := by
          rw [pow_add, pow_mul]
      _ = m := by rw [ZMod.pow_card_sub_one_eq_one hm, one_pow, pow_one, mul_one]

theorem rsa_pow_inverts (p q n e d : Nat) (hp : p.Prime) (hq : q.Prime)
    (hpq : p ≠ q) (hn : n = p * q) (he : 0 < e) (hd : 0 < d)
    (hep : e * d ≡ 1 [MOD p - 1]) (heq2 : e * d ≡ 1 [MOD q - 1]) (m : Nat) :
    m ^ (e * d) ≡ m [MOD n] := by
  subst hn
  have hed : 1 ≤ e * d := Nat.mul_pos he hd
  have hco : Nat.Coprime p q := (Nat.coprime_primes hp hq).mpr hpq
  exact (Nat.modEq_and_modEq_iff_modEq_mul hco).mp
    ⟨pow_inverts_mod_prime p e d m hp hed hep,
     pow_inverts_mod_prime q e d m hq hed heq2⟩

theorem rsa_sign_verify_value (p q n e d : Nat) (hp : p.Prime) (hq : q.Prime)
    (hpq : p ≠ q) (hn : n = p * q) (he : 0 < e) (hd : 0 < d)
    (hep : e * d ≡ 1 [MOD p - 1]) (heq2 : e * d ≡ 1 [MOD q - 1]) (m : Nat)
    (hm : m < n) : modPow (modPow m d n) e n = m := by
  have hn0 : 0 < n := by
    rw [hn]
    exact Nat.mul_pos hp.pos hq.pos
  rw [modPow_eq _ _ _ hn0, modPow_eq _ _ _ hn0, ← Nat.pow_mod, ← pow_mul]
  have hmod := rsa_pow_inverts p q n e d hp hq hpq hn he hd hep heq2 m
  calc m ^ (d * e) % n = m ^ (e * d) % n := by rw [mul_comm]
    _ = m % n := hmod
    _ = m := Nat.mod_eq_of_lt hm

theorem rsa_value_inj (p q n e d : Nat) (hp : p.Prime) (hq : q.Prime)
    (hpq : p ≠ q) (hn : n = p * q) (he : 0 < e) (hd : 0 < d)
    (hep : e * d ≡ 1 [MOD p - 1]) (heq2 : e * d ≡ 1 [MOD q - 1]) (x y : Nat)
    (hx : x < n) (hy : y < n) (h : modPow x e n = modPow y e n) : x = y := by
  have hswp : d * e ≡ 1 [MOD p - 1] := by rwa [mul_comm]
  have hswq : d * e ≡ 1 [MOD q - 1] := by rwa [mul_comm]
  have h1 := rsa_sign_verify_value p q n d e hp hq hpq hn hd he hswp hswq x hx
  have h2 := rsa_sign_verify_value p q n d e hp hq hpq hn hd he hswp hswq y hy
  rw [← h1, ← h2, h]

/-! ## Lemmas: Lucas certificates for the concrete primes -/

theorem zmod_pow_natCast (a k p : Nat) (hp : 0 < p) :
    ((a : Nat) : ZMod p) ^ k = ((modPow a k p : Nat) : ZMod p) := by
  have h : ((modPow a k p : Nat) : ZMod p) = ((a ^ k : Nat) : ZMod p) := by
    rw [modPow_eq _ _ _ hp, ZMod.natCast_mod]
  rw [h, Nat.cast_pow]

theorem zmod_natCast_ne_one (m p : Nat) (hp : 1 < p) (hm : m < p) (hne : m ≠ 1) :
    ((m : Nat) : ZMod p) ≠ 1 := by
  intro h
  have h1 : ((m : Nat) : ZMod p) = ((1 : Nat) : ZMod p) := by simpa using h
  have h2 : m % p = 1 % p := (ZMod.natCast_eq_natCast_iff _ _ _).mp h1
  rw [Nat.mod_eq_of_lt hm, Nat.mod_eq_of_lt hp] at h2
  exact hne h2

theorem prime_dvd_three_mul_two_pow (r B : Nat) (hr : r.Prime)
    (h : r ∣ 3 * 2 ^ B) : r = 2 ∨ r = 3 := by
  rcases (Nat.Prime.dvd_mul hr).mp h with h3 | h2
  · right
    exact (Nat.prime_dvd_prime_iff_eq hr (by norm_num)).mp h3
  · left
    exact (Nat.prime_dvd_prime_iff_eq hr Nat.prime_two).mp
      (Nat.Prime.dvd_of_dvd_pow hr h2)

theorem certP_prime : Nat.Prime certP := by
  have hpos : 0 < certP := by decide
  have hsub : certP - 1 = 3 * 2 ^ 18 := by decide
  apply lucas_primality certP ((10 : Nat) : ZMod certP)
  · rw [zmod_pow_natCast _ _ _ hpos]
    have hmp : modPow 10 (certP - 1) certP = 1 := by decide
    rw [hmp, Nat.cast_one]
  · intro r hr hdvd
    rw [hsub] at hdvd
    rcases prime_dvd_three_mul_two_pow r 18 hr hdvd with h2 | h3
    · subst h2
      rw [zmod_pow_natCast _ _ _ hpos]
      exact zmod_natCast_ne_one _ _ (by decide) (by decide) (by decide)
    · subst h3
      rw [zmod_pow_natCast _ _ _ hpos]
      exact zmod_natCast_ne_one _ _ (by decide) (by decide) (by decide)

set_option maxRecDepth 200000 in
set_option exponentiation.threshold 600 in
theorem certQ_prime : Nat.Prime certQ := by
  have hpos : 0 < certQ := by decide
  have hsub : certQ - 1 = 3 * 2 ^ 534 := by decide
  apply lucas_primality certQ ((5 : Nat) : ZMod certQ)
  · rw [zmod_pow_natCast _ _ _ hpos]
    have hmp : modPow 5 (certQ - 1) certQ = 1 := by decide
    rw [hmp, Nat.cast_one]
  · intro r hr hdvd
    rw [hsub] at hdvd
    rcases prime_dvd_three_mul_two_pow r 534 hr hdvd with h2 | h3
    · subst h2
      rw [zmod_pow_natCast _ _ _ hpos]
      exact zmod_natCast_ne_one _ _ (by decide) (by decide) (by decide)
    · subst h3
      rw [zmod_pow_natCast _ _ _ hpos]
      exact zmod_natCast_ne_one _ _ (by decide) (by decide) (by decide)

/-! ## Lemmas: base64 -/

theorem b64IdxAux_lt (c : Char) :
    ∀ (l : List Char) (i v : Nat), b64IdxAux c l i = some v → v < i + l.length := by
  intro l
  induction l with
  | nil => intro i v h; simp [b64IdxAux] at h
  | cons a as ih =>
    intro i v h
    rw [b64IdxAux] at h
    by_cases hac : a = c
    · rw [if_pos hac] at h
      have hiv : i = v := Option.some.inj h
      rw [List.length_cons]
      omega
    · rw [if_neg hac] at h
      have := ih (i + 1) v h
      rw [List.length_cons]
      omega

theorem b64Idx_lt (c : Char) (v : Nat) (h : b64Idx c = some v) : v < 64 := by
  have := b64IdxAux_lt c b64Alphabet 0 v h
  simpa using this

theorem b64Idx_b64Chr : ∀ v, v < 64 → b64Idx (b64Chr v) = some v := by decide

theorem b64Chr_ne_pad : ∀ v, v < 64 → b64Chr v ≠ '=' := by decide

theorem b64Chr_not_crlf (v : Nat) :
    (!(b64Chr v == '\r') && !(b64Chr v == '\n')) = true := by
  by_cases h : v < 64
  · revert h
    revert v
    decide
  · have : b64Chr v = 'A' := by
      rw [b64Chr]
      apply List.getD_eq_default
      have hlen : b64Alphabet.length = 64 := by decide
      omega
    rw [this]
    decide

theorem encodeB64_filter_eq (bs : List Nat) :
    (encodeB64 bs).filter (fun c => !(c == '\r') && !(c == '\n')) = encodeB64 bs := by
  apply List.filter_eq_self.mpr
  intro c hc
  induction bs using encodeB64.induct generalizing c with
  | case1 => simp [encodeB64] at hc
  | case2 a =>
    rw [encodeB64] at hc
    simp only [List.mem_cons, List.not_mem_nil, or_false] at hc
    rcases hc with rfl | rfl | rfl | rfl
    · exact b64Chr_not_crlf _
    · exact b64Chr_not_crlf _
    · decide
    · decide
  | case3 a b =>
    rw [encodeB64] at hc
    simp only [List.mem_cons, List.not_mem_nil, or_false] at hc
    rcases hc with rfl | rfl | rfl | rfl
    · exact b64Chr_not_crlf _
    · exact b64Chr_not_crlf _
    · exact b64Chr_not_crlf _
    · decide
  | case4 a b d rest ih =>
    rw [encodeB64] at hc
    simp only [List.mem_cons] at hc
    rcases hc with rfl | rfl | rfl | rfl | h
    · exact b64Chr_not_crlf _
    · exact b64Chr_not_crlf _
    · exact b64Chr_not_crlf _
    · exact b64Chr_not_crlf _
    · exact ih _ h

theorem decB64Aux_encodeB64 (bs : List Nat) (h : ValidBytes bs) :
    decB64Aux (encodeB64 bs) = some bs := by
  induction bs using encodeB64.induct with
  | case1 => rfl
  | case2 a =>
    have ha : a < 256 := h a (by simp)
    have h1 := b64Idx_b64Chr (a / 4) (by omega)
    have h2 := b64Idx_b64Chr (a % 4 * 16) (by omega)
    rw [encodeB64]
    simp only [decB64Aux, h1, h2]
    norm_num
    omega
  | case3 a b =>
    have ha : a < 256 := h a (by simp)
    have hb : b < 256 := h b (by simp)
    have h1 := b64Idx_b64Chr (a / 4) (by omega)
    have h2 := b64Idx_b64Chr (a % 4 * 16 + b / 16) (by omega)
    have h3 := b64Idx_b64Chr (b % 16 * 4) (by omega)
    have hne : b64Chr (b % 16 * 4) ≠ '=' := b64Chr_ne_pad _ (by omega)
    rw [encodeB64]
    simp only [decB64Aux, h1, h2]
    rw [if_neg hne]
    simp only [h3]
    norm_num
    constructor
    · omega
    · omega
  | case4 a b d rest ih =>
    have ha : a < 256 := h a (by simp)
    have hb : b < 256 := h b (by simp)
    have hd : d < 256 := h d (by simp)
    have hrest : ValidBytes rest := by
      intro x hx
      exact h x (by simp [hx])
    have h1 := b64Idx_b64Chr (a / 4) (by omega)
    have h2 := b64Idx_b64Chr (a % 4 * 16 + b / 16) (by omega)
    have h3 := b64Idx_b64Chr (b % 16 * 4 + d / 64) (by omega)
    have h4 := b64Idx_b64Chr (d % 64) (by omega)
    have hne3 : b64Chr (b % 16 * 4 + d / 64) ≠ '=' := b64Chr_ne_pad _ (by omega)
    have hne4 : b64Chr (d % 64) ≠ '=' := b64Chr_ne_pad _ (by omega)
    rw [encodeB64]
    simp only [decB64Aux, h1, h2]
    rw [if_neg hne3]
    simp only [h3]
    rw [if_neg hne4]
    simp only [h4, ih hrest]
    norm_num
    refine ⟨by omega, by omega, by omega⟩

theorem decodeB64_encodeB64 (bs : List Nat) (h : ValidBytes bs) :
    decodeB64 (encodeB64 bs) = some bs := by
  rw [decodeB64, encodeB64_filter_eq, decB64Aux_encodeB64 bs h]

theorem decB64Aux_valid_fuel :
    ∀ (n : Nat) (cs : List Char), cs.length ≤ n →
      ∀ bs, decB64Aux cs = some bs → ValidBytes bs := by
  intro n
  induction n with
  | zero =>
    intro cs hlen bs h
    match cs with
    | [] =>
      rw [decB64Aux] at h
      have : bs = [] := (Option.some.inj h).symm
      simp [this, ValidBytes]
  | succ n ih =>
    intro cs hlen bs h
    match cs with
    | [] =>
      rw [decB64Aux] at h
      have : bs = [] := (Option.some.inj h).symm
      simp [this, ValidBytes]
    | [c1] => exact Option.noConfusion h
    | [c1, c2] => exact Option.noConfusion h
    | [c1, c2, c3] => exact Option.noConfusion h
    | c1 :: c2 :: c3 :: c4 :: rest =>
      rw [decB64Aux] at h
      cases hv1 : b64Idx c1 with
      | none => rw [hv1] at h; simp at h
      | some v1 =>
        cases hv2 : b64Idx c2 with
        | none => rw [hv1, hv2] at h; simp at h
        | some v2 =>
          rw [hv1, hv2] at h
          simp only [] at h
          have hb1 : v1 < 64 := b64Idx_lt _ _ hv1
          have hb2 : v2 < 64 := b64Idx_lt _ _ hv2
          by_cases h3 : c3 = '='
          · rw [if_pos h3] at h
            by_cases hc : c4 = '=' ∧ rest = []
            · rw [if_pos hc] at h
              have hbs := Option.some.inj h
              intro x hx
              rw [← hbs] at hx
              simp only [List.mem_cons, List.not_mem_nil, or_false] at hx
              omega
            · rw [if_neg hc] at h
              exact absurd h (by simp)
          · rw [if_neg h3] at h
            cases hv3 : b64Idx c3 with
            | none => rw [hv3] at h; simp at h
            | some v3 =>
              rw [hv3] at h
              simp only [] at h
              have hb3 : v3 < 64 := b64Idx_lt _ _ hv3
              by_cases h4 : c4 = '='
              · rw [if_pos h4] at h
                by_cases hr : rest = []
                · rw [if_pos hr] at h
                  have hbs := Option.some.inj h
                  intro x hx
                  rw [← hbs] at hx
                  simp only [List.mem_cons, List.not_mem_nil, or_false] at hx
                  rcases hx with h | h <;> omega
                · rw [if_neg hr] at h
                  exact absurd h (by simp)
              · rw [if_neg h4] at h
                cases hv4 : b64Idx c4 with
                | none => rw [hv4] at h; simp at h
                | some v4 =>
                  rw [hv4] at h
                  simp only [] at h
                  have hb4 : v4 < 64 := b64Idx_lt _ _ hv4
                  cases hrec : decB64Aux rest with
                  | none => rw [hrec] at h; simp at h
                  | some bs2 =>
                    rw [hrec] at h
                    simp only [] at h
                    have hlen2 : rest.length ≤ n := by
                      simp only [List.length_cons] at hlen
                      omega
                    have hvalid2 : ValidBytes bs2 := ih rest hlen2 bs2 hrec
                    have hbs := Option.some.inj h
                    intro x hx
                    rw [← hbs] at hx
                    simp only [List.mem_cons] at hx
                    rcases hx with h | h | h | h
                    · omega
                    · omega
                    · omega
                    · exact hvalid2 x h

theorem decodeB64_valid (cs : List Char) (bs : List Nat)
    (h : decodeB64 cs = some bs) : ValidBytes bs :=
  decB64Aux_valid_fuel _ _ le_rfl bs h

/-! ## Lemmas: SHA-256 output shape and EMSA encoding -/

theorem wordBytes_valid (w : Nat) : ValidBytes (wordBytes w) := by
  intro b hb
  simp [wordBytes] at hb
  rcases hb with h | h | h | h <;> omega

theorem wordBytes_length (w : Nat) : (wordBytes w).length = 4 := by
  simp [wordBytes]

theorem sha256_length (msg : List Nat) : (sha256 msg).length = 32 := by
  rw [sha256]
  simp [wordBytes]

theorem sha256_valid (msg : List Nat) : ValidBytes (sha256 msg) := by
  rw [sha256]
  intro b hb
  simp only [List.mem_append] at hb
  rcases hb with ((((((h | h) | h) | h) | h) | h) | h) | h <;>
    exact wordBytes_valid _ b h

theorem emsa_eq (hashed : List Nat) (k : Nat) (hlen : hashed.length = 32)
    (hk : 62 ≤ k) : emsaPKCS1v15 hashed k = .ok (emPad k ++ hashed) := by
  rw [emsaPKCS1v15, if_neg (by omega), if_neg (by omega)]
  simp [emPad, List.append_assoc]

theorem digestInfoSHA256_length : digestInfoSHA256.length = 19 := by decide

theorem emPad_length (k : Nat) (hk : 62 ≤ k) : (emPad k).length = k - 32 := by
  simp [emPad, digestInfoSHA256_length, List.length_replicate]
  omega

theorem emPad_valid (k : Nat) : ValidBytes (emPad k) := by
  intro b hb
  rw [emPad] at hb
  rcases List.mem_cons.mp hb with rfl | hb1
  · omega
  rcases List.mem_cons.mp hb1 with rfl | hb2
  · omega
  rcases List.mem_append.mp hb2 with hb3 | hb4
  · have := List.eq_of_mem_replicate hb3
    omega
  rcases List.mem_cons.mp hb4 with rfl | hb5
  · omega
  · have hall : ∀ x ∈ digestInfoSHA256, x < 256 := by decide
    exact hall b hb5

theorem em_valid (hashed : List Nat) (k : Nat) (hv : ValidBytes hashed) :
    ValidBytes (emPad k ++ hashed) := by
  intro b hb
  rcases List.mem_append.mp hb with h | h
  · exact emPad_valid k b h
  · exact hv b h

theorem em_length (hashed : List Nat) (k : Nat) (hlen : hashed.length = 32)
    (hk : 62 ≤ k) : (emPad k ++ hashed).length = k := by
  rw [List.length_append, emPad_length k hk, hlen]
  omega

theorem em_os2ip_lt (hashed : List Nat) (k : Nat) (hv : ValidBytes hashed)
    (hlen : hashed.length = 32) (hk : 62 ≤ k) :
    os2ip (emPad k ++ hashed) < 256 ^ (k - 1) := by
  have hshape : emPad k ++ hashed
      = 0 :: (1 :: List.replicate (k - 54) 255 ++ 0 :: digestInfoSHA256 ++ hashed) := by
    simp [emPad, List.append_assoc]
  rw [hshape, os2ip_cons]
  have hvt : ValidBytes (1 :: List.replicate (k - 54) 255 ++ 0 :: digestInfoSHA256
      ++ hashed) := by
    intro b hb
    have : b ∈ emPad k ++ hashed := by
      rw [hshape]
      exact List.mem_cons_of_mem _ hb
    exact em_valid hashed k hv b this
  have hlt := os2ip_lt _ hvt
  have hlen2 : (1 :: List.replicate (k - 54) 255 ++ 0 :: digestInfoSHA256
      ++ hashed).length = k - 1 := by
    have := em_length hashed k hlen hk
    rw [hshape] at this
    rw [List.length_cons] at this
    omega
  rw [hlen2] at hlt
  omega

theorem emPad_append_inj (h1 h2 : List Nat) (k : Nat)
    (h : emPad k ++ h1 = emPad k ++ h2) : h1 = h2 :=
  List.append_cancel_left h

/-! ## Lemmas: the signature codec over a valid RSA key pair -/

theorem rsaSign_eq_of_emsa (nn dd : Nat) (hashed em : List Nat)
    (h : emsaPKCS1v15 hashed (byteSizeOf nn) = .ok em) :
    rsaSignPKCS1v15 ⟨nn, dd⟩ hashed
      = .ok (i2osp (modPow (os2ip em) dd nn) (byteSizeOf nn)) := by
  simp only [rsaSignPKCS1v15, h]

theorem rsaVerify_eq_of_emsa (nn ee : Nat) (hashed em sig : List Nat)
    (h : emsaPKCS1v15 hashed (byteSizeOf nn) = .ok em) :
    rsaVerifyPKCS1v15 ⟨nn, ee⟩ hashed sig
      = (if sig.length ≠ byteSizeOf nn then .error "crypto/rsa: verification error"
         else if nn ≤ os2ip sig then .error "crypto/rsa: verification error"
         else if i2osp (modPow (os2ip sig) ee nn) (byteSizeOf nn) = em
           then .ok ()
         else .error "crypto/rsa: verification error") := by
  simp only [rsaVerifyPKCS1v15, h]

theorem signRequest_eq_of_sign (priv : RSAPrivateKey) (B sig : List Nat)
    (h : rsaSignPKCS1v15 priv (sha256 B) = .ok sig) :
    signRequest priv B = .ok (String.mk (encodeB64 sig)) := by
  simp only [signRequest, h]

theorem verifyResponse_eq_of_decode (pub : RSAPublicKey) (B : List Nat)
    (sg : String) (u : List Nat) (h : decodeB64 sg.toList = some u) :
    verifyResponse pub B sg = rsaVerifyPKCS1v15 pub (sha256 B) u := by
  simp only [verifyResponse, h]

theorem verifyResponse_eq_of_decode_none (pub : RSAPublicKey) (B : List Nat)
    (sg : String) (h : decodeB64 sg.toList = none) :
    verifyResponse pub B sg = .error "decoding signature" := by
  simp only [verifyResponse, h]

theorem string_mk_toList (cs : List Char) : (String.mk cs).toList = cs := rfl

theorem rsa_codec_facts (p q n e d : Nat) (hp : p.Prime) (hq : q.Prime)
    (hpq : p ≠ q) (hn : n = p * q) (he : 0 < e) (hd : 0 < d)
    (hep : e * d ≡ 1 [MOD p - 1]) (heq2 : e * d ≡ 1 [MOD q - 1])
    (hk : 62 ≤ byteSizeOf n) (B : List Nat) :
    ∃ sigBytes : List Nat,
      rsaSignPKCS1v15 ⟨n, d⟩ (sha256 B) = .ok sigBytes ∧
      signRequest ⟨n, d⟩ B = .ok (String.mk (encodeB64 sigBytes)) ∧
      verifyResponse ⟨n, e⟩ B (String.mk (encodeB64 sigBytes)) = .ok () ∧
      (∀ B2 : List Nat, sha256 B2 ≠ sha256 B →
        verifyResponse ⟨n, e⟩ B2 (String.mk (encodeB64 sigBytes)) ≠ .ok ()) ∧
      (∀ t : String, decodeB64 t.toList ≠ some sigBytes →
        verifyResponse ⟨n, e⟩ B t ≠ .ok ()) := by
  have hn0 : 0 < n := by
    rw [hn]
    exact Nat.mul_pos hp.pos hq.pos
  have h256k : 256 ^ (byteSizeOf n - 1) ≤ n := byteSizeOf_le n (by omega)
  have hnlt : n < 256 ^ byteSizeOf n := byteSizeOf_lt n
  have hemsa : emsaPKCS1v15 (sha256 B) (byteSizeOf n)
      = .ok (emPad (byteSizeOf n) ++ sha256 B) :=
    emsa_eq _ _ (sha256_length B) hk
  have hem_valid : ValidBytes (emPad (byteSizeOf n) ++ sha256 B) :=
    em_valid _ _ (sha256_valid B)
  have hem_len : (emPad (byteSizeOf n) ++ sha256 B).length = byteSizeOf n :=
    em_length _ _ (sha256_length B) hk
  have hm_lt : os2ip (emPad (byteSizeOf n) ++ sha256 B) < n :=
    lt_of_lt_of_le (em_os2ip_lt _ _ (sha256_valid B) (sha256_length B) hk) h256k
  have hs_lt : modPow (os2ip (emPad (byteSizeOf n) ++ sha256 B)) d n < n := by
    rw [modPow_eq _ _ _ hn0]
    exact Nat.mod_lt _ hn0
  have hval : modPow (modPow (os2ip (emPad (byteSizeOf n) ++ sha256 B)) d n) e n
      = os2ip (emPad (byteSizeOf n) ++ sha256 B) :=
    rsa_sign_verify_value p q n e d hp hq hpq hn he hd hep heq2 _ hm_lt
  have hsig : rsaSignPKCS1v15 ⟨n, d⟩ (sha256 B)
      = .ok (i2osp (modPow (os2ip (emPad (byteSizeOf n) ++ sha256 B)) d n)
        (byteSizeOf n)) :=
    rsaSign_eq_of_emsa n d _ _ hemsa
  have hsig_valid := i2osp_valid
    (modPow (os2ip (emPad (byteSizeOf n) ++ sha256 B)) d n) (byteSizeOf n)
  have hsig_len : (i2osp (modPow (os2ip (emPad (byteSizeOf n) ++ sha256 B)) d n)
      (byteSizeOf n)).length = byteSizeOf n :=
    i2osp_length _ _ (lt_trans hs_lt hnlt)
  have hdec : decodeB64 (String.mk (encodeB64 (i2osp
      (modPow (os2ip (emPad (byteSizeOf n) ++ sha256 B)) d n)
      (byteSizeOf n)))).toList
      = some (i2osp (modPow (os2ip (emPad (byteSizeOf n) ++ sha256 B)) d n)
        (byteSizeOf n)) := by
    rw [string_mk_toList]
    exact decodeB64_encodeB64 _ hsig_valid
  refine ⟨i2osp (modPow (os2ip (emPad (byteSizeOf n) ++ sha256 B)) d n)
    (byteSizeOf n), hsig, signRequest_eq_of_sign _ _ _ hsig, ?_, ?_, ?_⟩
  case _ =>
    rw [verifyResponse_eq_of_decode _ _ _ _ hdec,
      rsaVerify_eq_of_emsa n e _ _ _ hemsa]
    rw [if_neg (by rw [hsig_len]; omega)]
    rw [if_neg (by rw [os2ip_i2osp]; omega)]
    rw [if_pos (by rw [os2ip_i2osp, hval, i2osp_os2ip _ _ hem_valid hem_len])]
  case _ =>
    intro B2 hne
    have hemsa2 : emsaPKCS1v15 (sha256 B2) (byteSizeOf n)
        = .ok (emPad (byteSizeOf n) ++ sha256 B2) :=
      emsa_eq _ _ (sha256_length B2) hk
    rw [verifyResponse_eq_of_decode _ _ _ _ hdec,
      rsaVerify_eq_of_emsa n e _ _ _ hemsa2]
    rw [if_neg (by rw [hsig_len]; omega)]
    rw [if_neg (by rw [os2ip_i2osp]; omega)]
    rw [if_neg (by
      rw [os2ip_i2osp, hval, i2osp_os2ip _ _ hem_valid hem_len]
      intro hcontra
      exact hne (emPad_append_inj _ _ _ hcontra.symm))]
    simp
  case _ =>
    intro t hneq hok
    cases hdec2 : decodeB64 t.toList with
    | none =>
      rw [verifyResponse_eq_of_decode_none _ _ _ hdec2] at hok
      exact Except.noConfusion hok
    | some u =>
      rw [verifyResponse_eq_of_decode _ _ _ _ hdec2,
        rsaVerify_eq_of_emsa n e _ _ _ hemsa] at hok
      have hu_ne : u ≠ i2osp (modPow (os2ip (emPad (byteSizeOf n) ++ sha256 B)) d n)
          (byteSizeOf n) := by
        intro hcontra
        exact hneq (by rw [hdec2, hcontra])
      have hu_valid : ValidBytes u := decodeB64_valid _ _ hdec2
      by_cases hlen : u.length = byteSizeOf n
      case neg =>
        rw [if_pos (by omega)] at hok
        exact Except.noConfusion hok
      case pos =>
        rw [if_neg (by omega)] at hok
        by_cases hrange : n ≤ os2ip u
        case pos =>
          rw [if_pos hrange] at hok
          exact Except.noConfusion hok
        case neg =>
          rw [if_neg hrange] at hok
          by_cases hfinal : i2osp (modPow (os2ip u) e n) (byteSizeOf n)
              = emPad (byteSizeOf n) ++ sha256 B
          case neg =>
            rw [if_neg hfinal] at hok
            exact Except.noConfusion hok
          case pos =>
            have hval_u : modPow (os2ip u) e n
                = os2ip (emPad (byteSizeOf n) ++ sha256 B) := by
              have hcong := congrArg os2ip hfinal
              rwa [os2ip_i2osp] at hcong
            have hveq : modPow (os2ip u) e n
                = modPow (modPow (os2ip (emPad (byteSizeOf n) ++ sha256 B)) d n)
                  e n := by rw [hval_u, hval]
            have hrange2 : os2ip u < n := by
              simp only [not_le] at hrange
              exact hrange
            have hx := rsa_value_inj p q n e d hp hq hpq hn he hd hep heq2
              (os2ip u)
              (modPow (os2ip (emPad (byteSizeOf n) ++ sha256 B)) d n)
              hrange2 hs_lt hveq
            exact hu_ne (by rw [← hx, i2osp_os2ip u _ hu_valid hlen])

/-! ## Lemmas: session parsing -/

theorem sessionUserScanStep_pres (acc : Client × Int) (kv : String × Json) :
    (sessionUserScanStep acc kv).1.installationToken = acc.1.installationToken ∧
    (sessionUserScanStep acc kv).1.sessionToken = acc.1.sessionToken ∧
    (sessionUserScanStep acc kv).1.sessionExpiry = acc.1.sessionExpiry ∧
    (sessionUserScanStep acc kv).1.privateKey = acc.1.privateKey ∧
    (sessionUserScanStep acc kv).1.serverPublicKey = acc.1.serverPublicKey ∧
    (sessionUserScanStep acc kv).1.primaryMonetaryAccountID
      = acc.1.primaryMonetaryAccountID := by
  rw [sessionUserScanStep]
  split
  · exact ⟨rfl, rfl, rfl, rfl, rfl, rfl⟩
  · split
    · exact ⟨rfl, rfl, rfl, rfl, rfl, rfl⟩
    · split
      · exact ⟨rfl, rfl, rfl, rfl, rfl, rfl⟩
      · exact ⟨rfl, rfl, rfl, rfl, rfl, rfl⟩

theorem sessionScan_pres (fields : List (String × Json)) :
    ∀ acc : Client × Int,
      (fields.foldl sessionUserScanStep acc).1.installationToken
        = acc.1.installationToken ∧
      (fields.foldl sessionUserScanStep acc).1.sessionToken = acc.1.sessionToken ∧
      (fields.foldl sessionUserScanStep acc).1.sessionExpiry = acc.1.sessionExpiry ∧
      (fields.foldl sessionUserScanStep acc).1.privateKey = acc.1.privateKey ∧
      (fields.foldl sessionUserScanStep acc).1.serverPublicKey
        = acc.1.serverPublicKey ∧
      (fields.foldl sessionUserScanStep acc).1.primaryMonetaryAccountID
        = acc.1.primaryMonetaryAccountID := by
  induction fields with
  | nil => intro acc; exact ⟨rfl, rfl, rfl, rfl, rfl, rfl⟩
  | cons kv fields ih =>
    intro acc
    rw [List.foldl_cons]
    obtain ⟨a1, a2, a3, a4, a5, a6⟩ := sessionUserScanStep_pres acc kv
    obtain ⟨b1, b2, b3, b4, b5, b6⟩ := ih (sessionUserScanStep acc kv)
    exact ⟨b1.trans a1, b2.trans a2, b3.trans a3, b4.trans a4, b5.trans a5,
      b6.trans a6⟩

theorem sessionTokenStep_pres (c : Client) (fields : List (String × Json)) :
    (sessionTokenStep c fields).1.installationToken = c.installationToken ∧
    (sessionTokenStep c fields).1.sessionExpiry = c.sessionExpiry ∧
    (sessionTokenStep c fields).1.privateKey = c.privateKey ∧
    (sessionTokenStep c fields).1.serverPublicKey = c.serverPublicKey ∧
    (sessionTokenStep c fields).1.userID = c.userID ∧
    (sessionTokenStep c fields).1.primaryMonetaryAccountID
      = c.primaryMonetaryAccountID := by
  rw [sessionTokenStep]
  split
  · exact ⟨rfl, rfl, rfl, rfl, rfl, rfl⟩
  · split
    · exact ⟨rfl, rfl, rfl, rfl, rfl, rfl⟩
    · exact ⟨rfl, rfl, rfl, rfl, rfl, rfl⟩

theorem parseSessionItems_pres :
    ∀ (items : List Json) (c : Client) (t : Int),
      (parseSessionItems c t items).1.installationToken = c.installationToken ∧
      (parseSessionItems c t items).1.sessionExpiry = c.sessionExpiry ∧
      (parseSessionItems c t items).1.privateKey = c.privateKey ∧
      (parseSessionItems c t items).1.serverPublicKey = c.serverPublicKey ∧
      (parseSessionItems c t items).1.primaryMonetaryAccountID
        = c.primaryMonetaryAccountID := by
  intro items
  induction items with
  | nil => intro c t; exact ⟨rfl, rfl, rfl, rfl, rfl⟩
  | cons item rest ih =>
    intro c t
    cases item with
    | obj fields =>
      rcases hts : sessionTokenStep c fields with ⟨c1, oe⟩
      obtain ⟨p1, p2, p3, p4, _, p6⟩ := sessionTokenStep_pres c fields
      rw [hts] at p1 p2 p3 p4 p6
      cases oe with
      | some e =>
        simp only [parseSessionItems, hts]
        exact ⟨p1, p2, p3, p4, p6⟩
      | none =>
        simp only [parseSessionItems, hts]
        obtain ⟨s1, _, s3, s4, s5, s6⟩ := sessionScan_pres fields (c1, t)
        obtain ⟨r1, r2, r3, r4, r5⟩ := ih (fields.foldl sessionUserScanStep (c1, t)).1
          (fields.foldl sessionUserScanStep (c1, t)).2
        exact ⟨(r1.trans s1).trans p1, (r2.trans s3).trans p2,
          (r3.trans s4).trans p3, (r4.trans s5).trans p4, (r5.trans s6).trans p6⟩
    | null => exact ih c t
    | bool b => exact ih c t
    | num i => exact ih c t
    | str s => exact ih c t
    | arr a => exact ih c t

theorem parseSessionItems_no_token :
    ∀ (items : List Json), items.all (fun i => !(itemHasTokenKey i)) = true →
      ∀ (c : Client) (t : Int),
        (parseSessionItems c t items).2.2 = none ∧
        (parseSessionItems c t items).1.sessionToken = c.sessionToken := by
  intro items
  induction items with
  | nil => intro _ c t; exact ⟨rfl, rfl⟩
  | cons item rest ih =>
    intro hall c t
    rw [List.all_cons, Bool.and_eq_true] at hall
    obtain ⟨hitem, hrest⟩ := hall
    cases item with
    | obj fields =>
      have hjg : jGet fields "Token" = none := by
        rw [itemHasTokenKey] at hitem
        simp only [Bool.not_eq_true'] at hitem
        exact Option.not_isSome_iff_eq_none.mp (by simp [hitem])
      have hts : sessionTokenStep c fields = (c, none) := by
        rw [sessionTokenStep, hjg]
      simp only [parseSessionItems, hts]
      obtain ⟨h1, h2⟩ := ih hrest (fields.foldl sessionUserScanStep (c, t)).1
        (fields.foldl sessionUserScanStep (c, t)).2
      obtain ⟨_, s2, _, _, _, _⟩ := sessionScan_pres fields (c, t)
      exact ⟨h1, h2.trans s2⟩
    | null => exact ih hrest c t
    | bool b => exact ih hrest c t
    | num i => exact ih hrest c t
    | str s => exact ih hrest c t
    | arr a => exact ih hrest c t

theorem parseSessionResponse_ok_shape (c : Client) (now : Int) (body : Json)
    (c2 : Client) (h : parseSessionResponse c now body = (c2, none)) :
    ∃ items c1 t, responseEnvelope body = .ok items ∧
      parseSessionItems c 0 items = (c1, t, none) ∧
      c1.sessionToken ≠ "" ∧ c1.userID ≠ 0 ∧
      c2 = { c1 with sessionExpiry := now + (if t = 0 then 1800 else t) } := by
  cases henv : responseEnvelope body with
  | error e =>
    simp only [parseSessionResponse, henv] at h
    simp only [Prod.mk.injEq] at h
    exact absurd h.2 (by simp)
  | ok items =>
    simp only [parseSessionResponse, henv] at h
    rcases hpi : parseSessionItems c 0 items with ⟨c1, t, oe⟩
    rw [hpi] at h
    cases oe with
    | some e => simp at h
    | none =>
      dsimp only at h
      by_cases htok : c1.sessionToken = ""
      · rw [if_pos htok] at h
        simp at h
      · rw [if_neg htok] at h
        by_cases huid : c1.userID = 0
        · rw [if_pos huid] at h
          simp at h
        · rw [if_neg huid] at h
          have hc2 : c2 = { c1 with sessionExpiry := now + (if t = 0 then 1800 else t) } := by
            have := congrArg Prod.fst h
            simpa using this.symm
          exact ⟨items, c1, t, rfl, hpi, htok, huid, hc2⟩

theorem parseSessionResponse_expiry_of_err (c : Client) (now : Int) (body : Json)
    (e : String) (h : (parseSessionResponse c now body).2 = some e) :
    (parseSessionResponse c now body).1.sessionExpiry = c.sessionExpiry := by
  cases henv : responseEnvelope body with
  | error e1 => simp only [parseSessionResponse, henv]
  | ok items =>
    simp only [parseSessionResponse, henv] at h ⊢
    rcases hpi : parseSessionItems c 0 items with ⟨c1, t, oe⟩
    simp only [hpi] at h ⊢
    have hpres := (parseSessionItems_pres items c 0).2.1
    rw [hpi] at hpres
    cases oe with
    | some e2 => exact hpres
    | none =>
      dsimp only at h ⊢
      by_cases htok : c1.sessionToken = ""
      · rw [if_pos htok]
        exact hpres
      · rw [if_neg htok] at h ⊢
        by_cases huid : c1.userID = 0
        · rw [if_pos huid]
          exact hpres
        · rw [if_neg huid] at h
          simp at h

theorem doSessionServer_expiry_of_err (c : Client) (now : Int)
    (resp : Except String Json) (e : String)
    (h : (doSessionServer c now resp).2 = some e) :
    (doSessionServer c now resp).1.sessionExpiry = c.sessionExpiry := by
  cases resp with
  | error e1 => rfl
  | ok body => exact parseSessionResponse_expiry_of_err c now body e h

theorem ensureSessionActive_expiry_of_err (c : Client) (now : Int)
    (resp : Except String Json) (e : String)
    (h : (ensureSessionActive c now resp).2 = some e) :
    (ensureSessionActive c now resp).1.sessionExpiry = c.sessionExpiry := by
  rw [ensureSessionActive] at h ⊢
  by_cases hfresh : 30 < c.sessionExpiry - now
  · rw [if_pos hfresh] at h
    simp at h
  · rw [if_neg hfresh] at h ⊢
    exact doSessionServer_expiry_of_err c now resp e h

/-! ## Lemmas: the bootstrap steps -/

theorem installItems_sessionToken : ∀ (items : List Json) (c : Client),
    (installItems c items).1.sessionToken = c.sessionToken := by
  intro items
  induction items with
  | nil => intro c; rfl
  | cons item rest ih =>
    intro c
    cases item with
    | obj fields =>
      rw [installItems]
      cases htok : jGet fields "Token" with
      | none =>
        simp only
        cases hspk : jGet fields "ServerPublicKey" with
        | none => simp only [hspk]; exact ih c
        | some kv =>
          simp only [hspk]
          cases hk : unmarshalServerKeyField kv with
          | error e => simp only
          | ok pemStr =>
            simp only
            cases hp : parsePublicKeyPEM pemStr with
            | error e => simp only
            | ok pub => simp only; exact ih _
      | some tv =>
        simp only
        cases hu : unmarshalInstToken tv with
        | error e => simp only
        | ok s =>
          simp only
          cases hspk : jGet fields "ServerPublicKey" with
          | none => simp only [hspk]; exact ih _
          | some kv =>
            simp only [hspk]
            cases hk : unmarshalServerKeyField kv with
            | error e => simp only
            | ok pemStr =>
              simp only
              cases hp : parsePublicKeyPEM pemStr with
              | error e => simp only
              | ok pub => simp only; exact ih _
    | null => exact ih c
    | bool b => exact ih c
    | num i => exact ih c
    | str s => exact ih c
    | arr a => exact ih c

theorem doInstallation_sessionToken (c : Client) (instResp : Except String Json)
    (c1 : Client) (h : doInstallation c instResp = (c1, none)) :
    c1.sessionToken = c.sessionToken := by
  cases instResp with
  | error e => simp [doInstallation] at h
  | ok body =>
    simp only [doInstallation] at h
    cases henv : responseEnvelope body with
    | error e => rw [henv] at h; simp at h
    | ok items =>
      rw [henv] at h
      dsimp only at h
      rcases hii : installItems c items with ⟨ci, oe⟩
      rw [hii] at h
      have hpres : ci.sessionToken = c.sessionToken := by
        have := installItems_sessionToken items c
        rw [hii] at this
        exact this
      cases oe with
      | some e => simp at h
      | none =>
        dsimp only at h
        by_cases h1 : ci.installationToken = ""
        · rw [if_pos h1] at h; simp at h
        · rw [if_neg h1] at h
          by_cases h2 : ci.serverPublicKey = none
          · rw [if_pos h2] at h; simp at h
          · rw [if_neg h2] at h
            obtain ⟨rfl, -⟩ := Prod.mk.injEq .. ▸ h
            exact hpres

theorem parseSessionResponse_err_of_no_token (c : Client) (now : Int)
    (body : Json) (items : List Json)
    (henv : responseEnvelope body = .ok items)
    (hall : items.all (fun i => !(itemHasTokenKey i)) = true)
    (hc : c.sessionToken = "") :
    (parseSessionResponse c now body).2 = some "no session token in response" := by
  simp only [parseSessionResponse, henv]
  rcases hpi : parseSessionItems c 0 items with ⟨c1, t, oe⟩
  obtain ⟨hnone, htokeq⟩ := parseSessionItems_no_token items hall c 0
  rw [hpi] at hnone htokeq
  cases oe with
  | some e => exact absurd hnone (by simp)
  | none =>
    dsimp only
    rw [if_pos (htokeq.trans hc)]

/-- C5. A session-server response whose items carry no session token makes
client construction fail with an error — whatever the other bootstrap
steps returned — and no partially-built client is returned: `NewClient`
yields `.error` and every step failure aborts the whole construction. -/
theorem c5_no_partial_client (priv : RSAPrivateKey)
    (instResp devResp acctResp : Except String Json) (now : Int)
    (body : Json) (items : List Json)
    (henv : responseEnvelope body = .ok items)
    (hall : items.all (fun i => !(itemHasTokenKey i)) = true) :
    ∃ e, NewClient priv instResp devResp (.ok body) acctResp now = .error e := by
  rw [NewClient]
  rcases hinst : doInstallation { privateKey := some priv } instResp with ⟨c1, oe1⟩
  cases oe1 with
  | some e => exact ⟨"installation: " ++ e, rfl⟩
  | none =>
    have hc1 : c1.sessionToken = "" :=
      doInstallation_sessionToken _ _ _ hinst
    dsimp only
    cases devResp with
    | error e => exact ⟨"device-server: " ++ e, rfl⟩
    | ok devBody =>
      have hsess : (doSessionServer c1 now (.ok body)).2
          = some "no session token in response" :=
        parseSessionResponse_err_of_no_token c1 now body items henv hall hc1
      rcases hds : doSessionServer c1 now (.ok body) with ⟨c3, oe3⟩
      rw [hds] at hsess
      cases oe3 with
      | none => exact absurd hsess (by simp)
      | some e3 =>
        refine ⟨"session-server: " ++ e3, ?_⟩
        simp only [doDeviceServer, hds]

/-! ## Lemmas: pagination -/

theorem listAux_stop_empty {α : Type} (count prevOlder : Int)
    (params : List (String × String)) (resp : ListResponse α)
    (rest : List (Except String (ListResponse α))) (h : resp.Items = []) :
    listAux count prevOlder params (.ok resp :: rest) = ([params], [], none) := by
  rw [listAux]
  dsimp only
  rw [if_pos (by simp [List.isEmpty_iff, h])]

theorem listAux_stop_no_cursor {α : Type} (count prevOlder : Int)
    (params : List (String × String)) (resp : ListResponse α)
    (rest : List (Except String (ListResponse α)))
    (hne : resp.Items ≠ []) (hcur : olderIDof resp.Pagination = none) :
    listAux count prevOlder params (.ok resp :: rest)
      = ([params], resp.Items, none) := by
  rw [listAux]
  dsimp only
  rw [if_neg (by simp [List.isEmpty_iff, hne]), hcur]

theorem listAux_stop_same_cursor {α : Type} (count prevOlder : Int)
    (params : List (String × String)) (resp : ListResponse α)
    (rest : List (Except String (ListResponse α))) (oid : Int)
    (hne : resp.Items ≠ []) (hcur : olderIDof resp.Pagination = some oid)
    (heq : oid = prevOlder) :
    listAux count prevOlder params (.ok resp :: rest)
      = ([params], resp.Items, none) := by
  rw [listAux]
  dsimp only
  rw [if_neg (by simp [List.isEmpty_iff, hne]), hcur]
  dsimp only
  rw [if_pos heq]

theorem listAux_continue {α : Type} (count prevOlder : Int)
    (params : List (String × String)) (resp : ListResponse α)
    (rest : List (Except String (ListResponse α))) (oid : Int)
    (hne : resp.Items ≠ []) (hcur : olderIDof resp.Pagination = some oid)
    (hneq : oid ≠ prevOlder) :
    listAux count prevOlder params (.ok resp :: rest)
      = (params :: (listAux count oid
            (toParams (some { OlderID := oid, Count := count })) rest).1,
         resp.Items ++ (listAux count oid
            (toParams (some { OlderID := oid, Count := count })) rest).2.1,
         (listAux count oid
            (toParams (some { OlderID := oid, Count := count })) rest).2.2) := by
  rw [listAux]
  dsimp only
  rw [if_neg (by simp [List.isEmpty_iff, hne]), hcur]
  dsimp only
  rw [if_neg hneq]

theorem count_mem_toParams (count oid : Int) (hc : 0 < count) :
    ("count", intToStr count) ∈ toParams (some { OlderID := oid, Count := count }) := by
  simp [toParams, hc]

theorem count_mem_toParams' (o : ListOptions) (hc : 0 < o.Count) :
    ("count", intToStr o.Count) ∈ toParams (some o) := by
  simp [toParams, hc]

theorem listAux_count_mem {α : Type} (count : Int) (hc : 0 < count) :
    ∀ (script : List (Except String (ListResponse α))) (prevOlder : Int)
      (params : List (String × String)),
      ("count", intToStr count) ∈ params →
      ∀ ps ∈ (listAux count prevOlder params script).1,
        ("count", intToStr count) ∈ ps := by
  intro script
  induction script with
  | nil =>
    intro prev params hmem ps hps
    simp only [listAux, List.mem_singleton] at hps
    subst hps
    exact hmem
  | cons r rest ih =>
    intro prev params hmem ps hps
    cases r with
    | error e =>
      simp only [listAux, List.mem_singleton] at hps
      subst hps
      exact hmem
    | ok resp =>
      by_cases hemp : resp.Items = []
      · rw [listAux_stop_empty count prev params resp rest hemp] at hps
        simp only [List.mem_singleton] at hps
        subst hps
        exact hmem
      · cases hcur : olderIDof resp.Pagination with
        | none =>
          rw [listAux_stop_no_cursor count prev params resp rest hemp hcur] at hps
          simp only [List.mem_singleton] at hps
          subst hps
          exact hmem
        | some oid =>
          by_cases heq : oid = prev
          · rw [listAux_stop_same_cursor count prev params resp rest oid
              hemp hcur heq] at hps
            simp only [List.mem_singleton] at hps
            subst hps
            exact hmem
          · rw [listAux_continue count prev params resp rest oid hemp hcur heq] at hps
            simp only [List.mem_cons] at hps
            rcases hps with rfl | hps
            · exact hmem
            · exact ih oid _ (count_mem_toParams count oid hc) ps hps

/-! ## Lemmas: DER encoding and parsing -/

theorem parseDERLen_derLen (L : Nat) (rest : List Nat) :
    parseDERLen (derLen L ++ rest) = some (L, rest) := by
  rw [derLen]
  by_cases h : L < 128
  · rw [if_pos h]
    show parseDERLen (L :: rest) = some (L, rest)
    rw [parseDERLen, if_pos h]
  · rw [if_neg h]
    obtain ⟨hhead, hne⟩ := minBytesAux_headD L L le_rfl (by omega)
    have hlenpos : 0 < (minBytes L).length := List.length_pos.mpr hne
    show parseDERLen ((128 + (minBytes L).length) :: (minBytes L ++ rest))
      = some (L, rest)
    rw [parseDERLen]
    rw [if_neg (by omega)]
    have hm : 128 + (minBytes L).length - 128 = (minBytes L).length := by omega
    simp only [hm]
    rw [if_neg (by omega)]
    rw [if_neg (by
      rw [List.length_append]
      omega)]
    rw [List.take_left, List.drop_left]
    have hhead' : ¬((minBytes L).headD 0 = 0) := hhead
    rw [if_neg hhead']
    rw [minBytes_os2ip]
    rw [if_neg (fun hc => h hc.2)]

theorem derIntContent_ne_nil (v : Nat) : derIntContent v ≠ [] := by
  rw [derIntContent]
  by_cases h0 : v = 0
  · simp [h0]
  · dsimp only
    rw [if_neg h0]
    obtain ⟨-, hne⟩ := minBytesAux_headD v v le_rfl h0
    by_cases hh : 128 ≤ (minBytes v).headD 0
    · rw [if_pos hh]; simp
    · rw [if_neg hh]; exact hne

theorem derIntContent_head_lt (v : Nat) : (derIntContent v).headD 0 < 128 := by
  rw [derIntContent]
  by_cases h0 : v = 0
  · simp [h0]
  · dsimp only
    rw [if_neg h0]
    by_cases hh : 128 ≤ (minBytes v).headD 0
    · rw [if_pos hh]; simp
    · rw [if_neg hh]; omega

theorem derIntContent_os2ip (v : Nat) : os2ip (derIntContent v) = v := by
  rw [derIntContent]
  by_cases h0 : v = 0
  · simp [h0, os2ip]
  · dsimp only
    rw [if_neg h0]
    by_cases hh : 128 ≤ (minBytes v).headD 0
    · rw [if_pos hh, os2ip_cons, minBytes_os2ip]
      omega
    · rw [if_neg hh, minBytes_os2ip]

theorem derIntContent_minimal (v : Nat) :
    ¬(1 < (derIntContent v).length ∧ (derIntContent v).headD 0 = 0 ∧
      (derIntContent v).tail.headD 0 < 128) := by
  rw [derIntContent]
  by_cases h0 : v = 0
  · simp [h0]
  · dsimp only
    rw [if_neg h0]
    obtain ⟨hhead, hne⟩ := minBytesAux_headD v v le_rfl h0
    by_cases hh : 128 ≤ (minBytes v).headD 0
    · rw [if_pos hh]
      rintro ⟨-, -, h3⟩
      simp only [List.tail_cons] at h3
      omega
    · rw [if_neg hh]
      rintro ⟨-, h2, -⟩
      exact hhead h2

theorem derIntContent_valid (v : Nat) : ValidBytes (derIntContent v) := by
  rw [derIntContent]
  by_cases h0 : v = 0
  · simp [h0, ValidBytes]
  · dsimp only
    rw [if_neg h0]
    by_cases hh : 128 ≤ (minBytes v).headD 0
    · rw [if_pos hh]
      intro b hb
      rcases List.mem_cons.mp hb with rfl | hb
      · omega
      · exact minBytes_valid v b hb
    · rw [if_neg hh]
      exact minBytes_valid v

theorem parseDERInt_derInt (v : Nat) (rest : List Nat) :
    parseDERInt (derInt v ++ rest) = some (v, rest) := by
  have hne := derIntContent_ne_nil v
  have hlenpos : 0 < (derIntContent v).length := List.length_pos.mpr hne
  rw [derInt]
  show parseDERInt (2 :: (derLen (derIntContent v).length ++ derIntContent v) ++ rest)
    = some (v, rest)
  rw [List.cons_append, List.append_assoc]
  rw [parseDERInt]
  rw [parseDERLen_derLen]
  dsimp only
  rw [if_neg (by
    rw [List.length_append]
    omega)]
  rw [List.take_left, List.drop_left]
  rw [if_neg (by
    have := derIntContent_head_lt v
    omega)]
  rw [if_neg (derIntContent_minimal v)]
  rw [derIntContent_os2ip]

theorem derLen_length_le (L : Nat) : (derLen L).length ≤ 1 + (minBytes L).length := by
  rw [derLen]
  by_cases h : L < 128
  · rw [if_pos h]; simp
  · rw [if_neg h, List.length_cons]; omega

theorem derIntContent_length_le (v : Nat) :
    (derIntContent v).length ≤ byteSizeOf v + 1 := by
  rw [derIntContent]
  by_cases h0 : v = 0
  · simp [h0]
  · dsimp only
    rw [if_neg h0]
    by_cases hh : 128 ≤ (minBytes v).headD 0
    · rw [if_pos hh]
      rw [List.length_cons, byteSizeOf]
    · rw [if_neg hh]
      rw [byteSizeOf]
      omega

theorem derLen_valid (L : Nat) (h : L < 256 ^ 127) : ValidBytes (derLen L) := by
  rw [derLen]
  by_cases h1 : L < 128
  · rw [if_pos h1]
    intro b hb
    simp only [List.mem_singleton] at hb
    omega
  · rw [if_neg h1]
    intro b hb
    rcases List.mem_cons.mp hb with rfl | hb
    · have := minBytes_length_le L 127 h
      omega
    · exact minBytes_valid L b hb

theorem derInt_valid (v : Nat) (h : (derIntContent v).length < 256 ^ 127) :
    ValidBytes (derInt v) := by
  rw [derInt]
  intro b hb
  rcases List.mem_cons.mp hb with rfl | hb
  · omega
  · rcases List.mem_append.mp hb with hb | hb
    · exact derLen_valid _ h b hb
    · exact derIntContent_valid v b hb

theorem derInt_length_le (v : Nat) :
    (derInt v).length ≤ byteSizeOf v + (minBytes (derIntContent v).length).length + 3 := by
  simp only [derInt, List.length_cons, List.length_append]
  have h1 := derLen_length_le (derIntContent v).length
  have h2 := derIntContent_length_le v
  omega

theorem pow_256_eight : (256 : Nat) ^ 8 = 2 ^ 64 := by norm_num

theorem pow_256_le_127 : (256 : Nat) ^ 8 ≤ 256 ^ 127 :=
  Nat.pow_le_pow_right (by omega) (by omega)

theorem marshalPKCS1_valid (pub : RSAPublicKey)
    (hesz : pub.e ≤ 9223372036854775807) (hnsz : byteSizeOf pub.n ≤ 2 ^ 61) :
    ValidBytes (marshalPKCS1PublicKey pub) := by
  have hE : byteSizeOf pub.e ≤ 8 := by
    apply minBytes_length_le
    rw [pow_256_eight]
    omega
  have hcn : (derIntContent pub.n).length < 256 ^ 127 := by
    have h1 := derIntContent_length_le pub.n
    have : (derIntContent pub.n).length < 256 ^ 8 := by
      rw [pow_256_eight]
      have : (2 : Nat) ^ 61 < 2 ^ 64 := by norm_num
      omega
    exact lt_of_lt_of_le this pow_256_le_127
  have hce : (derIntContent pub.e).length < 256 ^ 127 := by
    have h1 := derIntContent_length_le pub.e
    have : (derIntContent pub.e).length < 256 ^ 8 := by
      rw [pow_256_eight]
      have : (9 : Nat) < 2 ^ 64 := by norm_num
      omega
    exact lt_of_lt_of_le this pow_256_le_127
  have hcontent : (derInt pub.n ++ derInt pub.e).length < 256 ^ 127 := by
    rw [List.length_append]
    have h1 := derInt_length_le pub.n
    have h2 := derInt_length_le pub.e
    have h3 : (minBytes (derIntContent pub.n).length).length ≤ 8 := by
      apply minBytes_length_le
      have := derIntContent_length_le pub.n
      rw [pow_256_eight]
      have : (2 : Nat) ^ 61 < 2 ^ 64 := by norm_num
      omega
    have h4 : (minBytes (derIntContent pub.e).length).length ≤ 8 := by
      apply minBytes_length_le
      have := derIntContent_length_le pub.e
      rw [pow_256_eight]
      have : (9 : Nat) + 1 < 2 ^ 64 := by norm_num
      omega
    have h5 : (256 : Nat) ^ 8 ≤ 256 ^ 127 := pow_256_le_127
    have h6 : (2 : Nat) ^ 61 + 2 ^ 61 < 256 ^ 8 := by
      rw [pow_256_eight]
      norm_num
    omega
  rw [marshalPKCS1PublicKey]
  intro b hb
  rcases List.mem_cons.mp hb with rfl | hb
  · omega
  · rcases List.mem_append.mp hb with hb | hb
    · exact derLen_valid _ hcontent b hb
    · rcases List.mem_append.mp hb with hb | hb
      · exact derInt_valid _ hcn b hb
      · exact derInt_valid _ hce b hb

theorem parsePKCS1_marshal (pub : RSAPublicKey) (hn : 0 < pub.n) (he : 0 < pub.e)
    (hesz : pub.e ≤ 9223372036854775807) :
    parsePKCS1PublicKey (marshalPKCS1PublicKey pub) = .ok pub := by
  rw [marshalPKCS1PublicKey]
  show parsePKCS1PublicKey (48 :: (derLen (derInt pub.n ++ derInt pub.e).length
    ++ (derInt pub.n ++ derInt pub.e))) = .ok pub
  rw [parsePKCS1PublicKey]
  rw [parseDERLen_derLen]
  dsimp only
  rw [if_neg (by omega)]
  rw [List.drop_length]
  rw [if_neg (by simp)]
  rw [List.take_length]
  rw [parseDERInt_derInt]
  dsimp only
  rw [show derInt pub.e = derInt pub.e ++ [] from (List.append_nil _).symm]
  rw [parseDERInt_derInt]
  dsimp only
  rw [if_neg (by simp)]
  rw [if_neg (by omega)]
  rw [if_neg (by omega)]

/-! ## Lemmas: PEM encoding and decoding -/

theorem splitLines_cons (c : Char) (cs : List Char) :
    splitLines (c :: cs) =
      match splitLines cs with
      | [] => [[]]
      | line :: rest =>
        if c = '\n' then [] :: line :: rest else (c :: line) :: rest := rfl

theorem splitLines_shape : ∀ cs : List Char, ∃ l ls, splitLines cs = l :: ls := by
  intro cs
  induction cs with
  | nil => exact ⟨[], [], rfl⟩
  | cons c cs ih =>
    obtain ⟨l, ls, h⟩ := ih
    rw [splitLines_cons, h]
    by_cases hc : c = '\n'
    · exact ⟨[], l :: ls, by dsimp only; rw [if_pos hc]⟩
    · exact ⟨c :: l, ls, by dsimp only; rw [if_neg hc]⟩

theorem splitLines_append_line (l : List Char) (cs : List Char) (hl : '\n' ∉ l) :
    splitLines (l ++ '\n' :: cs) = l :: splitLines cs := by
  induction l with
  | nil =>
    rw [List.nil_append]
    obtain ⟨x, xs, h⟩ := splitLines_shape cs
    rw [splitLines_cons, h]
    dsimp only
    rw [if_pos rfl]
  | cons a as ih =>
    have ha : a ≠ '\n' := fun hc => hl (hc ▸ List.mem_cons_self a as)
    have has : '\n' ∉ as := fun hc => hl (List.mem_cons_of_mem a hc)
    rw [List.cons_append, splitLines_cons, ih has]
    dsimp only
    rw [if_neg ha]

theorem splitLines_joinLines :
    ∀ ls : List (List Char), (∀ l ∈ ls, '\n' ∉ l) →
      splitLines (joinLines ls) = ls ++ [[]] := by
  intro ls
  induction ls with
  | nil => intro _; rfl
  | cons l ls ih =>
    intro hl
    rw [joinLines, splitLines_append_line l _ (hl l (List.mem_cons_self l ls)),
      ih (fun x hx => hl x (List.mem_cons_of_mem l hx)), List.cons_append]

theorem takeWhile_append_all {α : Type} (p : α → Bool) :
    ∀ l1 l2 : List α, (∀ a ∈ l1, p a = true) →
      (l1 ++ l2).takeWhile p = l1 ++ l2.takeWhile p := by
  intro l1
  induction l1 with
  | nil => intro l2 _; rfl
  | cons a as ih =>
    intro l2 h
    rw [List.cons_append, List.takeWhile_cons,
      if_pos (h a (List.mem_cons_self a as)), ih l2
      (fun x hx => h x (List.mem_cons_of_mem a hx)), List.cons_append]

theorem dropWhile_append_all {α : Type} (p : α → Bool) :
    ∀ l1 l2 : List α, (∀ a ∈ l1, p a = true) →
      (l1 ++ l2).dropWhile p = l2.dropWhile p := by
  intro l1
  induction l1 with
  | nil => intro l2 _; rfl
  | cons a as ih =>
    intro l2 h
    rw [List.cons_append, List.dropWhile_cons,
      if_pos (by rw [h a (List.mem_cons_self a as)]), ih l2
      (fun x hx => h x (List.mem_cons_of_mem a hx))]

theorem b64Chr_ne_nl_dash (v : Nat) : b64Chr v ≠ '\n' ∧ b64Chr v ≠ '-' := by
  by_cases h : v < 64
  · revert h
    revert v
    decide
  · have : b64Chr v = 'A' := by
      rw [b64Chr]
      apply List.getD_eq_default
      have hlen : b64Alphabet.length = 64 := by decide
      omega
    rw [this]
    exact ⟨by decide, by decide⟩

theorem encodeB64_no_nl_dash (bs : List Nat) :
    ∀ c ∈ encodeB64 bs, c ≠ '\n' ∧ c ≠ '-' := by
  intro c hc
  induction bs using encodeB64.induct generalizing c with
  | case1 => simp [encodeB64] at hc
  | case2 a =>
    rw [encodeB64] at hc
    simp only [List.mem_cons, List.not_mem_nil, or_false] at hc
    rcases hc with rfl | rfl | rfl | rfl
    · exact b64Chr_ne_nl_dash _
    · exact b64Chr_ne_nl_dash _
    · exact ⟨by decide, by decide⟩
    · exact ⟨by decide, by decide⟩
  | case3 a b =>
    rw [encodeB64] at hc
    simp only [List.mem_cons, List.not_mem_nil, or_false] at hc
    rcases hc with rfl | rfl | rfl | rfl
    · exact b64Chr_ne_nl_dash _
    · exact b64Chr_ne_nl_dash _
    · exact b64Chr_ne_nl_dash _
    · exact ⟨by decide, by decide⟩
  | case4 a b d rest ih =>
    rw [encodeB64] at hc
    simp only [List.mem_cons] at hc
    rcases hc with rfl | rfl | rfl | rfl | h
    · exact b64Chr_ne_nl_dash _
    · exact b64Chr_ne_nl_dash _
    · exact b64Chr_ne_nl_dash _
    · exact b64Chr_ne_nl_dash _
    · exact ih _ h

theorem chunksAux_subset :
    ∀ (f : Nat) (cs ch : List Char), ch ∈ chunksAux f cs → ∀ c ∈ ch, c ∈ cs := by
  intro f
  induction f with
  | zero =>
    intro cs ch hch c hc
    cases cs with
    | nil => simp [chunksAux] at hch
    | cons a as =>
      rw [chunksAux] at hch
      · simp only [List.mem_singleton] at hch
        subst hch
        exact hc
      · intro hcontra
        exact List.noConfusion hcontra
  | succ f ih =>
    intro cs ch hch c hc
    cases cs with
    | nil => simp [chunksAux] at hch
    | cons a as =>
      rw [chunksAux] at hch
      · rcases List.mem_cons.mp hch with rfl | hch
        · exact List.take_subset _ _ hc
        · exact List.drop_subset _ _ (ih _ ch hch c hc)
      · intro hcontra
        exact List.noConfusion hcontra

theorem chunksAux_flatten : ∀ (f : Nat) (cs : List Char), (chunksAux f cs).flatten = cs := by
  intro f
  induction f with
  | zero =>
    intro cs
    cases cs with
    | nil => rfl
    | cons a as => simp [chunksAux]
  | succ f ih =>
    intro cs
    cases cs with
    | nil => rfl
    | cons a as =>
      rw [chunksAux]
      · rw [List.flatten_cons, ih, List.take_append_drop]
      · intro hcontra
        exact List.noConfusion hcontra

theorem chunks64_flatten (cs : List Char) : (chunks64 cs).flatten = cs :=
  chunksAux_flatten cs.length cs

theorem pemDecode_pemEncode (der : List Nat) (h : ValidBytes der) :
    pemDecode (pemEncodeRSA der) = some der := by
  have hchunk_nl : ∀ ch ∈ chunks64 (encodeB64 der), '\n' ∉ ch := by
    intro ch hch hc
    exact (encodeB64_no_nl_dash der '\n'
      (chunksAux_subset _ _ ch hch '\n' hc)).1 rfl
  have hchunk_ne : ∀ ch ∈ chunks64 (encodeB64 der),
      (decide (ch ≠ pemEndRSA)) = true := by
    intro ch hch
    rw [decide_eq_true_eq]
    intro hceq
    have hdash : '-' ∈ ch := by
      rw [hceq]
      decide
    exact (encodeB64_no_nl_dash der '-'
      (chunksAux_subset _ _ ch hch '-' hdash)).2 rfl
  have hlines : ∀ l ∈ pemBeginRSA :: (chunks64 (encodeB64 der) ++ [pemEndRSA]),
      '\n' ∉ l := by
    intro l hl
    rcases List.mem_cons.mp hl with rfl | hl
    · decide
    · rcases List.mem_append.mp hl with hl | hl
      · exact hchunk_nl l hl
      · simp only [List.mem_singleton] at hl
        subst hl
        decide
  rw [pemEncodeRSA, pemDecode, splitLines_joinLines _ hlines, List.cons_append]
  dsimp only
  rw [if_pos rfl]
  rw [List.append_assoc]
  rw [takeWhile_append_all _ _ _ hchunk_ne, dropWhile_append_all _ _ _ hchunk_ne]
  have hstop : ([pemEndRSA] ++ [([] : List Char)]).takeWhile
      (fun l => decide (l ≠ pemEndRSA)) = [] := by
    rw [List.cons_append, List.takeWhile_cons, if_neg (by simp)]
  have hdrop : ([pemEndRSA] ++ [([] : List Char)]).dropWhile
      (fun l => decide (l ≠ pemEndRSA)) = [pemEndRSA, []] := by
    rw [List.cons_append, List.dropWhile_cons, if_neg (by simp)]
    simp
  rw [hstop, hdrop]
  rw [List.head?_cons, if_pos rfl]
  rw [List.append_nil, chunks64_flatten]
  exact decodeB64_encodeB64 der h

theorem parsePublicKeyPEM_roundtrip (pub : RSAPublicKey) (hn : 0 < pub.n)
    (he : 0 < pub.e) (hesz : pub.e ≤ 9223372036854775807)
    (hnsz : byteSizeOf pub.n ≤ 2 ^ 61) :
    parsePublicKeyPEM (publicKeyToPEM pub) = .ok pub := by
  rw [publicKeyToPEM, parsePublicKeyPEM, string_mk_toList]
  rw [pemDecode_pemEncode _ (marshalPKCS1_valid pub hesz hnsz)]
  dsimp only
  rw [parsePKCS1_marshal pub hn he hesz]

/-! ## The claims -/

/-- C1. Contrary to the documented retry policy, the embedded `request`
never retries: on a transcript whose first response is a 429 with a
`Retry-After` hint (and whose later responses would succeed), it makes
exactly one HTTP call and immediately surfaces the classified
TooManyRequests error. -/
theorem c1_no_retry_on_429 :
    requestExec { installationToken := "inst" } false 0 (.error "unused") "req-1" []
        [resp429, resp429, resp200]
      = ({ installationToken := "inst" },
         .error (.api { kind := .tooManyRequests,
                        statusCode := 429,
                        responseID := "resp-429",
                        messages := ["Too many requests"] }), 1) := by
  rfl

/-- C2 (amended). A failed session refresh propagates its error to the
triggering call (as a refresh error, before any HTTP attempt is made) and
leaves the stored session expiry unchanged; the session token and user id,
however, may already have been overwritten by the partially-parsed
response, because `parseSessionResponse` mutates the client before
validating. -/
theorem c2_refresh_failure (c : Client) (now : Int)
    (sessionResp : Except String Json) (reqID : String) (bodyBytes : List Nat)
    (responses : List HttpResp) (e : String)
    (h : (ensureSessionActive c now sessionResp).2 = some e) :
    requestExec c true now sessionResp reqID bodyBytes responses
      = ((ensureSessionActive c now sessionResp).1, .error (.refresh e), 0) ∧
    (ensureSessionActive c now sessionResp).1.sessionExpiry = c.sessionExpiry := by
  refine ⟨?_, ensureSessionActive_expiry_of_err c now sessionResp e h⟩
  rw [requestExec]
  rcases hE : ensureSessionActive c now sessionResp with ⟨c1, oe⟩
  rw [hE] at h
  dsimp only at h
  subst h
  rfl

/-- C2 witness: the stale client refreshed against the token-corrupting
response surfaces the parse error as a refresh error without touching the
expiry. -/
theorem c2_refresh_failure_witness :
    requestExec staleClient true 0 (.ok corruptingRefreshBody) "req" [] []
      = ((ensureSessionActive staleClient 0 (.ok corruptingRefreshBody)).1,
         .error (.refresh "parsing session token"), 0) ∧
    (ensureSessionActive staleClient 0 (.ok corruptingRefreshBody)).1.sessionExpiry
      = staleClient.sessionExpiry :=
  c2_refresh_failure staleClient 0 (.ok corruptingRefreshBody) "req" [] []
    "parsing session token" (by decide)

/-- C2 counterexample: the refresh fails, yet the previously stored
session token `"OLD"` has been overwritten with the `"NEW"` token of the
malformed response — the failed refresh does corrupt the stored session
state. -/
theorem c2_counterexample :
    (ensureSessionActive staleClient 0 (.ok corruptingRefreshBody)).2
      = some "parsing session token" ∧
    staleClient.sessionToken = "OLD" ∧
    (ensureSessionActive staleClient 0 (.ok corruptingRefreshBody)).1.sessionToken
      = "NEW" := by
  decide

/-- C3 (amended). After a page response arrives, the iterator stops with
no further request when the page is empty (yielding no items, even if a
fresh cursor is present), or — after yielding the items — when the older
cursor is absent (in particular when there is no pagination descriptor at
all) or equals the cursor just used; otherwise it requests the next page
with the extracted cursor and the configured count. -/
theorem c3_pagination_stop {α : Type} (count prevOlder : Int)
    (params : List (String × String)) (resp : ListResponse α)
    (rest : List (Except String (ListResponse α))) :
    (resp.Items = [] →
      listAux count prevOlder params (.ok resp :: rest) = ([params], [], none)) ∧
    (resp.Items ≠ [] → olderIDof resp.Pagination = none →
      listAux count prevOlder params (.ok resp :: rest)
        = ([params], resp.Items, none)) ∧
    (∀ oid, resp.Items ≠ [] → olderIDof resp.Pagination = some oid →
      oid = prevOlder →
      listAux count prevOlder params (.ok resp :: rest)
        = ([params], resp.Items, none)) ∧
    (∀ oid, resp.Items ≠ [] → olderIDof resp.Pagination = some oid →
      oid ≠ prevOlder →
      listAux count prevOlder params (.ok resp :: rest)
        = (params :: (listAux count oid
              (toParams (some { OlderID := oid, Count := count })) rest).1,
           resp.Items ++ (listAux count oid
              (toParams (some { OlderID := oid, Count := count })) rest).2.1,
           (listAux count oid
              (toParams (some { OlderID := oid, Count := count })) rest).2.2)) :=
  ⟨fun h => listAux_stop_empty count prevOlder params resp rest h,
   fun hne hcur => listAux_stop_no_cursor count prevOlder params resp rest hne hcur,
   fun oid hne hcur heq =>
     listAux_stop_same_cursor count prevOlder params resp rest oid hne hcur heq,
   fun oid hne hcur hneq =>
     listAux_continue count prevOlder params resp rest oid hne hcur hneq⟩

/-- C3 counterexample: an empty page carrying a fresh older cursor (5,
different from the cursor 0 just used) still stops the iteration after
exactly one request and yields nothing, contradicting the claim's
"otherwise the next page is requested with the extracted cursor". -/
theorem c3_counterexample :
    emptyPageWithCursor.Items = [] ∧
    olderIDof emptyPageWithCursor.Pagination = some 5 ∧
    (listIter none [Except.ok emptyPageWithCursor, Except.ok pageTwo]).1.length
      = 1 ∧
    (listIter none [Except.ok emptyPageWithCursor, Except.ok pageTwo]).2.1
      = [] := by
  decide

/-- C4. When the caller specifies no page size (no options, or a zero
`Count`), every page request the iterator issues carries
`count=200`, the upstream maximum. -/
theorem c4_default_count {α : Type} (opts : Option ListOptions)
    (script : List (Except String (ListResponse α)))
    (h : (opts.getD {}).Count = 0) :
    ∀ ps ∈ (listIter opts script).1, ("count", "200") ∈ ps := by
  have hunf : listIter opts script
      = listAux defaultListCount 0
          (toParams (some { opts.getD {} with Count := defaultListCount }))
          script := by
    cases opts with
    | none => rfl
    | some o =>
      have ho : o.Count = 0 := h
      rw [listIter]
      dsimp only [Option.getD]
      rw [if_neg (by omega), if_pos ho]
  intro ps hps
  rw [hunf] at hps
  have hmem : ("count", intToStr defaultListCount) ∈
      toParams (some { opts.getD {} with Count := defaultListCount }) :=
    count_mem_toParams' _ (by show (0 : Int) < defaultListCount; decide)
  have h200 : ("count", "200") = (("count", intToStr defaultListCount) :
      String × String) := by decide
  rw [h200]
  exact listAux_count_mem defaultListCount (by decide) script 0 _ hmem ps hps

/-- C4 witness: the single request of a one-page run with no options
carries `count=200`. -/
theorem c4_default_count_witness :
    ("count", "200") ∈ ([("count", "200")] : List (String × String)) :=
  c4_default_count none [Except.ok pageTwo] (by decide) [("count", "200")]
    (by decide)

/-- C5 witness: with an empty session-server item list (so no token), the
construction fails for some error, whatever the other steps returned. -/
theorem c5_no_partial_client_witness :
    ∃ e, NewClient certPriv (.error "boom") (.error "x") (.ok (.obj
      [("Response", .arr [])])) (.error "y") 0 = .error e :=
  c5_no_partial_client certPriv (.error "boom") (.error "x") (.error "y") 0
    (.obj [("Response", .arr [])]) [] rfl (by decide)

/-- C6 (amended). Over any honestly generated RSA key pair (distinct
primes, matching exponents, modulus of at least 62 bytes) and any body,
sign-then-verify succeeds; verification fails for every body tampering
that changes the digest, and for every signature tampering that changes
the decoded signature bytes. (A tampering of the base64 text that decodes
to the same bytes — Go's non-strict decoder ignores CR/LF and the unused
trailing padding bits — is silently accepted; see the counterexample.) -/
theorem c6_sign_verify (p q n e d : Nat) (B : List Nat) (hp : p.Prime)
    (hq : q.Prime) (hpq : p ≠ q) (hn : n = p * q) (he : 0 < e) (hd : 0 < d)
    (hep : e * d ≡ 1 [MOD p - 1]) (heq2 : e * d ≡ 1 [MOD q - 1])
    (hk : 62 ≤ byteSizeOf n) :
    ∃ sigBytes : List Nat,
      rsaSignPKCS1v15 ⟨n, d⟩ (sha256 B) = .ok sigBytes ∧
      signRequest ⟨n, d⟩ B = .ok (String.mk (encodeB64 sigBytes)) ∧
      verifyResponse ⟨n, e⟩ B (String.mk (encodeB64 sigBytes)) = .ok () ∧
      (∀ B2 : List Nat, sha256 B2 ≠ sha256 B →
        verifyResponse ⟨n, e⟩ B2 (String.mk (encodeB64 sigBytes)) ≠ .ok ()) ∧
      (∀ t : String, decodeB64 t.toList ≠ some sigBytes →
        verifyResponse ⟨n, e⟩ B t ≠ .ok ()) :=
  rsa_codec_facts p q n e d hp hq hpq hn he hd hep heq2 hk B

set_option maxRecDepth 200000 in
set_option exponentiation.threshold 600 in
/-- C6 witness: the certified 70-byte-modulus key pair satisfies every
hypothesis, so the codec contract holds at it for the empty body. -/
theorem c6_sign_verify_witness :
    ∃ sigBytes : List Nat,
      rsaSignPKCS1v15 ⟨certN, certD⟩ (sha256 []) = .ok sigBytes ∧
      signRequest ⟨certN, certD⟩ [] = .ok (String.mk (encodeB64 sigBytes)) ∧
      verifyResponse ⟨certN, certE⟩ [] (String.mk (encodeB64 sigBytes)) = .ok () ∧
      (∀ B2 : List Nat, sha256 B2 ≠ sha256 [] →
        verifyResponse ⟨certN, certE⟩ B2 (String.mk (encodeB64 sigBytes)) ≠ .ok ()) ∧
      (∀ t : String, decodeB64 t.toList ≠ some sigBytes →
        verifyResponse ⟨certN, certE⟩ [] t ≠ .ok ()) :=
  c6_sign_verify certP certQ certN certE certD [] certP_prime certQ_prime
    (by decide) rfl (by decide) (by decide) (by decide) (by decide) (by decide)

set_option maxRecDepth 1000000 in
set_option exponentiation.threshold 600 in
/-- C6 counterexample: a one-character tampering of the signature text
(flipping an unused trailing padding bit of the final base64 symbol) is
accepted by `verifyResponse`, so not every tampering of the signature
makes verification fail. -/
theorem c6_counterexample :
    signRequest certPriv [] = .ok certSigStr ∧
    certSigTampered ≠ certSigStr ∧
    verifyResponse certPub [] certSigTampered = .ok () :=
  ⟨by rfl, by decide, by rfl⟩

/-- C7. Decoding the PEM encoding of a valid RSA public key (positive
modulus and exponent, the exponent fitting Go's 64-bit `int`, the modulus
of any realistic size) returns the same key. -/
theorem c7_pem_roundtrip (pub : RSAPublicKey) (hn : 0 < pub.n)
    (he : 0 < pub.e) (hesz : pub.e ≤ 9223372036854775807)
    (hnsz : byteSizeOf pub.n ≤ 2 ^ 61) :
    parsePublicKeyPEM (publicKeyToPEM pub) = .ok pub :=
  parsePublicKeyPEM_roundtrip pub hn he hesz hnsz

/-- C7 witness: the roundtrip at the key (3233, 17). -/
theorem c7_pem_roundtrip_witness :
    parsePublicKeyPEM (publicKeyToPEM ⟨3233, 17⟩) = .ok ⟨3233, 17⟩ :=
  c7_pem_roundtrip ⟨3233, 17⟩ (by decide) (by decide) (by decide) (by decide)

/-- C8. Every successful session parse computes
`sessionExpiry = now + timeout` from the response's parsed
session-timeout value, defaulting the timeout to 1800 seconds exactly
when it is absent or zero (an absent field leaves the running value 0). -/
theorem c8_session_expiry (c : Client) (now : Int) (body : Json) (c2 : Client)
    (h : parseSessionResponse c now body = (c2, none)) :
    ∃ items c1 t, responseEnvelope body = .ok items ∧
      parseSessionItems c 0 items = (c1, t, none) ∧
      c1.sessionToken ≠ "" ∧ c1.userID ≠ 0 ∧
      c2 = { c1 with sessionExpiry := now + (if t = 0 then 1800 else t) } :=
  parseSessionResponse_ok_shape c now body c2 h

/-- C8 witness: parsing the well-formed session response at time 100
yields expiry `100 + 600 = 700`. -/
theorem c8_session_expiry_witness :
    ∃ items c1 t, responseEnvelope sessionOKBody = .ok items ∧
      parseSessionItems {} 0 items = (c1, t, none) ∧
      c1.sessionToken ≠ "" ∧ c1.userID ≠ 0 ∧
      ({ sessionToken := "sesstok", userID := 7, sessionExpiry := 700 } : Client)
        = { c1 with sessionExpiry := 100 + (if t = 0 then 1800 else t) } :=
  c8_session_expiry {} 100 sessionOKBody
    { sessionToken := "sesstok", userID := 7, sessionExpiry := 700 } (by decide)

/-- C9 (amended). Immediately after every successful session parse the
stored session token and user id are non-empty/non-zero, and the expiry
equals `now + timeout` for the parsed timeout value — which lies strictly
in the future whenever that value is non-negative. (A negative
`session_timeout` in the response is used as-is and puts the expiry in
the past; see the counterexample.) -/
theorem c9_expiry_future (c : Client) (now : Int) (body : Json) (c2 : Client)
    (h : parseSessionResponse c now body = (c2, none)) :
    c2.sessionToken ≠ "" ∧ c2.userID ≠ 0 ∧
    ∃ t : Int, c2.sessionExpiry = now + (if t = 0 then 1800 else t) ∧
      (0 ≤ t → now < c2.sessionExpiry) := by
  obtain ⟨items, c1, t, henv, hpi, htok, huid, hc2⟩ :=
    parseSessionResponse_ok_shape c now body c2 h
  subst hc2
  refine ⟨htok, huid, t, rfl, ?_⟩
  intro ht
  show now < now + (if t = 0 then 1800 else t)
  by_cases h0 : t = 0
  · rw [if_pos h0]
    omega
  · rw [if_neg h0]
    omega

/-- C9 witness: the well-formed session response parsed at time 100. -/
theorem c9_expiry_future_witness :
    ({ sessionToken := "sesstok", userID := 7, sessionExpiry := 700 } :
          Client).sessionToken ≠ "" ∧
    ({ sessionToken := "sesstok", userID := 7, sessionExpiry := 700 } :
          Client).userID ≠ 0 ∧
    ∃ t : Int,
      ({ sessionToken := "sesstok", userID := 7, sessionExpiry := 700 } :
          Client).sessionExpiry = 100 + (if t = 0 then 1800 else t) ∧
      (0 ≤ t →
        100 < ({ sessionToken := "sesstok", userID := 7, sessionExpiry := 700 } :
          Client).sessionExpiry) :=
  c9_expiry_future {} 100 sessionOKBody
    { sessionToken := "sesstok", userID := 7, sessionExpiry := 700 } (by decide)

/-- C9 counterexample: a response carrying `session_timeout = -100`
parses successfully at time 0, yet the resulting expiry is `-100` —
strictly in the past, violating the claimed invariant. -/
theorem c9_counterexample :
    (parseSessionResponse {} 0 negTimeoutBody).2 = none ∧
    (parseSessionResponse {} 0 negTimeoutBody).1.sessionToken = "T" ∧
    (parseSessionResponse {} 0 negTimeoutBody).1.sessionExpiry < 0 := by
  refine ⟨by decide, by decide, ?_⟩
  decide

/-- C10. With an empty stored token the header builder sets neither the
authentication nor the signature header, whatever the key material; with
a non-empty token and a private key it sets both, the signature being
`signRequest` of the raw body bytes. -/
theorem c10_headers (reqID token : String) (key : RSAPrivateKey)
    (bodyBytes : List Nat) :
    (∀ pk : Option RSAPrivateKey, ∃ hs,
      buildHeaders reqID "" pk bodyBytes = .ok hs ∧
      getHeader hs "X-Bunq-Client-Authentication" = "" ∧
      getHeader hs "X-Bunq-Client-Signature" = "") ∧
    (token ≠ "" → ∀ sig, signRequest key bodyBytes = .ok sig →
      ∃ hs, buildHeaders reqID token (some key) bodyBytes = .ok hs ∧
        getHeader hs "X-Bunq-Client-Authentication" = token ∧
        getHeader hs "X-Bunq-Client-Signature" = sig) := by
  constructor
  · intro pk
    cases pk with
    | none => exact ⟨_, rfl, rfl, rfl⟩
    | some k => exact ⟨_, rfl, rfl, rfl⟩
  · intro htok sig hsig
    refine ⟨[("Content-Type", "application/json"),
             ("User-Agent", "bunq-go/1.0.0"),
             ("X-Bunq-Client-Request-Id", reqID),
             ("X-Bunq-Geolocation", "0 0 0 0 NL"),
             ("X-Bunq-Language", "en_US"),
             ("X-Bunq-Region", "nl_NL"),
             ("Cache-Control", "no-cache"),
             ("X-Bunq-Client-Authentication", token),
             ("X-Bunq-Client-Signature", sig)], ?_, rfl, rfl⟩
    rw [buildHeaders]
    rw [if_pos htok, hsig]
    dsimp only
    rw [if_pos htok]
    rfl

end BunqGo
